import Mathlib

/-!
A verification development for the `vcf2avro` transcoder (`vcf2avro.py`).

The Python source is shallowly embedded: byte strings become `List Char`,
Python's fallible operations return `Option`, dictionaries become ordered
association lists with insertion-order update semantics, and the decoder
closures produced by `VCFReader._get_converter` are defunctionalized into the
`Conv` inductive together with the interpreter `apply_conv`.  Machine floats
are modelled as rationals; the `pyFloatQ` model covers the plain decimal
literal fragment of Python's `float()` (sign, digits, optional fractional
part, surrounding ASCII whitespace), which is the only fragment the program's
inputs exercise in the properties proved below.
-/

namespace Vcf2Avro

/-- Byte strings (`bytes` values of the source) are modelled as lists of
characters. -/
abbrev Bytes := List Char

/-- Conversion of a Lean string literal to a modelled byte string. -/
def bts (s : String) : Bytes := s.data

/-- ASCII whitespace recognised by Python's `bytes.split()` and `strip()`. -/
def isPyWs (c : Char) : Bool :=
  c = ' ' || c = '\t' || c = '\n' || c = '\r' || c = '\x0b' || c = '\x0c'

/-- Python `s.split(sep)` for a single-byte separator: splits at every
occurrence, keeping empty pieces; the result is always nonempty. -/
def pysplitOn (sep : Char) : Bytes → List Bytes
  | [] => [[]]
  | c :: rest =>
    let r := pysplitOn sep rest
    if c = sep then [] :: r
    else
      match r with
      | [] => [[c]]
      | t :: ts => (c :: t) :: ts

/-- Python `s.split(sep, 1)`: split at the first occurrence only. -/
def pysplitOn1 (sep : Char) : Bytes → List Bytes
  | [] => [[]]
  | c :: rest =>
    if c = sep then [[], rest]
    else
      match pysplitOn1 sep rest with
      | [] => [[c]]
      | t :: ts => (c :: t) :: ts

/-- Helper for `pysplitWs`: accumulates the current (reversed) word. -/
def pysplitWsAux : Bytes → Bytes → List Bytes
  | [], cur => if cur = [] then [] else [cur.reverse]
  | c :: rest, cur =>
    if isPyWs c then
      if cur = [] then pysplitWsAux rest []
      else cur.reverse :: pysplitWsAux rest []
    else pysplitWsAux rest (c :: cur)

/-- Python `s.split()` with no argument: split on runs of ASCII whitespace,
discarding empty pieces. -/
def pysplitWs (s : Bytes) : List Bytes := pysplitWsAux s []

/-- Python `s.find(c)` for a single byte: first index, or `-1` if absent. -/
def pyfind (c : Char) : Bytes → Int
  | [] => -1
  | x :: r =>
    if x = c then 0
    else
      let k := pyfind c r
      if k < 0 then -1 else k + 1

/-- Normalisation of one Python slice endpoint against a length. -/
def pynorm (n : Nat) (i : Int) : Nat :=
  if i < 0 then ((n : Int) + i).toNat else min i.toNat n

/-- Python `s[a:b]` slicing (negative indices count from the end). -/
def pyslice (s : Bytes) (a b : Int) : Bytes :=
  (s.take (pynorm s.length b)).drop (pynorm s.length a)

/-- Python `s.strip(c)` for a single byte: drop that byte from both ends. -/
def pystrip (c : Char) (s : Bytes) : Bytes :=
  ((s.dropWhile (fun x => x = c)).reverse.dropWhile (fun x => x = c)).reverse

/-- Python `s.strip()` on both ends with ASCII whitespace, as performed
implicitly by `int()` and `float()` on their argument. -/
def stripWs (s : Bytes) : Bytes :=
  ((s.dropWhile isPyWs).reverse.dropWhile isPyWs).reverse

/-- Numeric value of a digit string (only meaningful when all are digits). -/
def natOfDigits (l : Bytes) : Nat :=
  l.foldl (fun a c => a * 10 + (c.toNat - 48)) 0

/-- A nonempty all-digit string parsed to a natural number, else failure. -/
def digitsToNat (t : Bytes) : Option Nat :=
  if t ≠ [] ∧ t.all Char.isDigit then some (natOfDigits t) else none

/-- Model of Python `int()` on a byte string: surrounding ASCII whitespace,
an optional sign, then a nonempty run of decimal digits. -/
def pyInt (s : Bytes) : Option Int :=
  match stripWs s with
  | [] => none
  | c :: r =>
    if c = '+' then (digitsToNat r).map (fun n => (n : Int))
    else if c = '-' then (digitsToNat r).map (fun n => -(n : Int))
    else (digitsToNat (c :: r)).map (fun n => (n : Int))

/-- Unsigned part of the `float()` model: `digits`, `digits.digits`,
`digits.` or `.digits`. -/
def pyFloatBody (sgn : ℚ) (t : Bytes) : Option ℚ :=
  let ip := t.takeWhile Char.isDigit
  let rest := t.dropWhile Char.isDigit
  match rest with
  | [] => if ip = [] then none else some (sgn * (natOfDigits ip : ℚ))
  | '.' :: fr =>
    let fp := fr.takeWhile Char.isDigit
    let rest2 := fr.dropWhile Char.isDigit
    if rest2 = [] ∧ (ip ≠ [] ∨ fp ≠ []) then
      some (sgn * ((natOfDigits ip : ℚ) + (natOfDigits fp : ℚ) / (10 : ℚ) ^ fp.length))
    else none
  | _ => none

/-- Model of Python `float()` on the plain decimal-literal fragment
(the only fragment exercised here); floats are modelled as rationals. -/
def pyFloatQ (s : Bytes) : Option ℚ :=
  match stripWs s with
  | [] => none
  | c :: r =>
    if c = '+' then pyFloatBody 1 r
    else if c = '-' then pyFloatBody (-1) r
    else pyFloatBody 1 (c :: r)

/-- Python dictionaries with byte-string keys: ordered association lists. -/
abbrev Dict (α : Type) := List (Bytes × α)

/-- Dictionary lookup (`d[k]` read / `k in d` test). -/
def dictGet {α : Type} (k : Bytes) : Dict α → Option α
  | [] => none
  | (k2, v) :: rest => if k2 = k then some v else dictGet k rest

/-- Python `k in d`. -/
def dictMem {α : Type} (k : Bytes) (d : Dict α) : Bool :=
  (dictGet k d).isSome

/-- Dictionary update `d[k] = v`: overwrite in place, else append
(Python dict insertion-order semantics). -/
def dictSet {α : Type} (k : Bytes) (v : α) : Dict α → Dict α
  | [] => [(k, v)]
  | (k2, v2) :: rest =>
    if k2 = k then (k2, v) :: rest else (k2, v2) :: dictSet k v rest

/-- The keys of a dictionary, in insertion order. -/
def dictKeys {α : Type} (d : Dict α) : List Bytes := d.map (fun p => p.1)

/-- `mapM` specialised to `Option`, written out for easy unfolding. -/
def optMapM {α β : Type} (f : α → Option β) : List α → Option (List β)
  | [] => some []
  | a :: as =>
    match f a with
    | none => none
    | some b => (optMapM f as).map (fun l => b :: l)

/-- `foldlM` specialised to `Option`, written out for easy unfolding. -/
def optFoldl {α β : Type} (f : β → α → Option β) : List α → β → Option β
  | [], b => some b
  | a :: as, b =>
    match f b a with
    | none => none
    | some b2 => optFoldl f as b2

/-- Python `s.startswith(p)`. -/
def startswith : Bytes → Bytes → Bool
  | [], _ => true
  | _ :: _, [] => false
  | p :: ps, c :: cs => p == c && startswith ps cs

/-- Python `l.index(x)`: position of the first occurrence, failure
(`ValueError`) if absent. -/
def pyIndex (x : Bytes) : List Bytes → Option Nat
  | [] => none
  | y :: r =>
    if y = x then some 0
    else (pyIndex x r).map (fun n => n + 1)

/-! ## Constants of the source module -/

/-- `CHROM_NAME`. -/
def CHROM_NAME : Bytes := bts "CHROM"

/-- `POS_NAME`. -/
def POS_NAME : Bytes := bts "POS"

/-- `ID_NAME`. -/
def ID_NAME : Bytes := bts "ID"

/-- `REF_NAME`. -/
def REF_NAME : Bytes := bts "REF"

/-- `ALT_NAME`. -/
def ALT_NAME : Bytes := bts "ALT"

/-- `QUAL_NAME`. -/
def QUAL_NAME : Bytes := bts "QUAL"

/-- `FILTER_NAME`. -/
def FILTER_NAME : Bytes := bts "FILTER"

/-- `INFO_NAME`. -/
def INFO_NAME : Bytes := bts "INFO"

/-- `VCF_FIXED_COLUMNS`. -/
def VCF_FIXED_COLUMNS : List Bytes :=
  [CHROM_NAME, POS_NAME, ID_NAME, REF_NAME, ALT_NAME, QUAL_NAME, FILTER_NAME]

/-- `COLUMN_SEPARATOR`, the byte joining a namespace to a local column name. -/
def COLUMN_SEPARATOR : Char := '_'

/-- `MISSING_VALUE`, the missing-value sentinel `b"."`. -/
def MISSING_VALUE : Bytes := bts "."

/-- Header identifier `ID`. -/
def ID : Bytes := bts "ID"

/-- Header identifier `INFO`. -/
def INFO : Bytes := bts "INFO"

/-- Header identifier `Description`. -/
def DESCRIPTION : Bytes := bts "Description"

/-- Header identifier `Number`. -/
def NUMBER : Bytes := bts "Number"

/-- Header identifier `Type`. -/
def TYPE : Bytes := bts "Type"

/-- Header type name `Integer`. -/
def INTEGER : Bytes := bts "Integer"

/-- Header type name `Float`. -/
def FLOAT : Bytes := bts "Float"

/-- Header type name `Flag`. -/
def FLAG : Bytes := bts "Flag"

/-- Header type name `Character`. -/
def CHARACTER : Bytes := bts "Character"

/-- Header type name `String`. -/
def STRING : Bytes := bts "String"

/-- `VARIABLE_SIZE`: the element count that marks a variable-arity column. -/
def VARIABLE_SIZE : Int := 0

/-! ## Decoded values and decoders -/

/-- A decoded Python value: an int, a float (modelled as a rational), a byte
string, or a list of decoded values. -/
inductive PyVal where
  | int : Int → PyVal
  | float : ℚ → PyVal
  | bytes : Bytes → PyVal
  | list : List PyVal → PyVal

/-- The Avro element types the source emits (keys of the converter
dictionary `d` in `_get_converter`). -/
inductive ElemType where
  | boolean : ElemType
  | int : ElemType
  | float : ElemType
  | bytes : ElemType
deriving DecidableEq, Repr

/-- Defunctionalized decoders: `Conv.scalar et` is the scalar parser drawn
from the dictionary `d` of `_get_converter`, and `Conv.eachTok et` is the
closure `conv` that splits the raw value on a comma and applies the scalar
parser to every token.  Python `None` (no decoding) is represented by the
absence of a `Conv` (`Option Conv` being `none`). -/
inductive Conv where
  | scalar : ElemType → Conv
  | eachTok : ElemType → Conv
deriving DecidableEq, Repr

/-- The converter dictionary `d = {"boolean": int, "int": int, "float":
float, "bytes": None}` of `_get_converter`, defunctionalized. -/
def conv_dict : ElemType → Option Conv
  | ElemType.bytes => none
  | et => some (Conv.scalar et)

/-- The scalar parser named by the converter dictionary: `int` for
`"boolean"` and `"int"`, `float` for `"float"` (no parser for `"bytes"`). -/
def apply_scalar : ElemType → Bytes → Option PyVal
  | ElemType.boolean, s => (pyInt s).map PyVal.int
  | ElemType.int, s => (pyInt s).map PyVal.int
  | ElemType.float, s => (pyFloatQ s).map PyVal.float
  | ElemType.bytes, _ => none

/-- Interpreter for the defunctionalized decoders: `Conv.scalar` applies the
scalar parser; `Conv.eachTok` splits on a comma and applies the scalar
parser to each token, collecting a list. -/
def apply_conv : Conv → Bytes → Option PyVal
  | Conv.scalar et, s => apply_scalar et s
  | Conv.eachTok et, s =>
    (optMapM (fun t => apply_scalar et t) (pysplitOn ',' s)).map PyVal.list

/-- `VCFReader._get_converter`: the identity decoder for byte strings; the
scalar parser when exactly one element is expected; otherwise the
comma-splitting decoder built on the scalar parser. -/
def get_converter (avro_type : ElemType) (num_elements : Int) : Option Conv :=
  if num_elements = 1 then conv_dict avro_type
  else
    match conv_dict avro_type with
    | none => none
    | some (Conv.scalar et) => some (Conv.eachTok et)
    | some c => some c

/-! ## Schema construction -/

/-- The type of one schema field: a nullable scalar or a nullable array of
scalars (`add_column_definition` always unions the type with `"null"`). -/
inductive FieldType where
  | scalar : ElemType → FieldType
  | array : ElemType → FieldType
deriving DecidableEq, Repr

/-- One field of the emitted Avro record schema. -/
structure SchemaField where
  name : Bytes
  ftype : FieldType
  nullable : Bool
deriving DecidableEq, Repr

/-- The state grown by `generate_schema`: the ordered field list
(`self.__schema`) and the column-name → decoder map (`self.__columns`). -/
structure BuilderState where
  fields : List SchemaField
  columns : Dict (Option Conv)
deriving DecidableEq, Repr

/-- `VCFReader.add_column_definition`: append one nullable field (array-typed
when the element count is not one and the element type is not a byte string)
and record its decoder in the column map. -/
def add_column_definition (st : BuilderState) (name _descr : Bytes)
    (avro_type : ElemType) (num_elements : Int) : BuilderState :=
  let t : FieldType :=
    if num_elements = 1 ∨ avro_type = ElemType.bytes then FieldType.scalar avro_type
    else FieldType.array avro_type
  { fields := st.fields ++ [⟨name, t, true⟩],
    columns := dictSet name (get_converter avro_type num_elements) st.columns }

/-- `VCFReader.add_int_column`. -/
def add_int_column (st : BuilderState) (name descr : Bytes) : BuilderState :=
  add_column_definition st name descr ElemType.int 1

/-- `VCFReader.add_char_column`. -/
def add_char_column (st : BuilderState) (name descr : Bytes) : BuilderState :=
  add_column_definition st name descr ElemType.bytes 1

/-- `VCFReader.add_float_column`. -/
def add_float_column (st : BuilderState) (name descr : Bytes) : BuilderState :=
  add_column_definition st name descr ElemType.float 1

/-- One iteration of the attribute loop of `VCFReader.add_column`: cut the
text at the first comma, split the piece at `=` signs, and record the first
two tokens in the dictionary (failure when there is no `=`). -/
def parse_attr_step (sd : Bytes × Dict Bytes) : Option (Bytes × Dict Bytes) :=
  let s := sd.1
  let k := pyfind ',' s
  let tokens := pysplitOn '=' (pyslice s 0 k)
  let s2 := pyslice s (k + 1) s.length
  match tokens with
  | t0 :: t1 :: _ => some (s2, dictSet t0 t1 sd.2)
  | _ => none

/-- The attribute parse of `VCFReader.add_column`: take the text between the
angle brackets, read three comma-separated `key=value` pairs, then split the
remainder once at `=` for the final pair. -/
def parse_attrs (line : Bytes) : Option (Dict Bytes) :=
  let s0 := pyslice line (pyfind '<' line + 1) (pyfind '>' line)
  match parse_attr_step (s0, []) with
  | none => none
  | some sd1 =>
    match parse_attr_step sd1 with
    | none => none
    | some sd2 =>
      match parse_attr_step sd2 with
      | none => none
      | some sd3 =>
        match pysplitOn1 '=' sd3.1 with
        | t0 :: t1 :: _ => some (dictSet t0 t1 sd3.2)
        | _ => none

/-- The column specification computed inside `VCFReader.add_column` before it
calls `add_column_definition`. -/
structure ColumnInfo where
  name : Bytes
  description : Bytes
  element_type : ElemType
  element_size : Int
  num_elements : Int
deriving DecidableEq, Repr

/-- The `Number` normalization of `VCFReader.add_column`: start from
`VARIABLE_SIZE`, overwrite with a successful integer parse, and coerce a
negative parse back to `VARIABLE_SIZE`. -/
def parsed_num (number : Bytes) : Int :=
  let n0 : Int :=
    match pyInt number with
    | some n => n
    | none => VARIABLE_SIZE
  if n0 < 0 then VARIABLE_SIZE else n0

/-- The `Type` dispatch of `VCFReader.add_column`, giving the element type,
the element size and the final element count (`Flag` forces one element;
`String` forces `VARIABLE_SIZE`; an unknown type raises). -/
def type_triple (st : Bytes) (num0 : Int) : Option (ElemType × Int × Int) :=
  if st = INTEGER then some (ElemType.int, (4 : Int), num0)
  else if st = FLOAT then some (ElemType.float, (4 : Int), num0)
  else if st = FLAG then some (ElemType.int, (1 : Int), (1 : Int))
  else if st = CHARACTER then some (ElemType.bytes, (1 : Int), num0)
  else if st = STRING then some (ElemType.bytes, (1 : Int), VARIABLE_SIZE)
  else none

/-- The body of `VCFReader.add_column` up to the `add_column_definition`
call: extract the attributes, normalize the declared `Number`, and dispatch
on the declared `Type`. -/
def parse_column_spec (line : Bytes) : Option ColumnInfo :=
  match parse_attrs line with
  | none => none
  | some d =>
    match dictGet ID d with
    | none => none
    | some name =>
      match dictGet DESCRIPTION d with
      | none => none
      | some descRaw =>
        match dictGet NUMBER d with
        | none => none
        | some number =>
          match dictGet TYPE d with
          | none => none
          | some st =>
            match type_triple st (parsed_num number) with
            | none => none
            | some tri =>
              some ⟨name, pystrip '\"' descRaw, tri.1, tri.2.1, tri.2.2⟩

/-- `VCFReader.add_column`: parse the metadata line and register the column
under `pfx + COLUMN_SEPARATOR + name`. -/
def add_column (st : BuilderState) (pfx line : Bytes) : Option BuilderState :=
  (parse_column_spec line).map (fun ci =>
    add_column_definition st (pfx ++ COLUMN_SEPARATOR :: ci.name)
      ci.description ci.element_type ci.num_elements)

/-- The header partition of `generate_schema`: `##INFO` lines, else
`##FORMAT` lines, in header order; all others are skipped. -/
def classifyHeader : List Bytes → List Bytes × List Bytes
  | [] => ([], [])
  | s :: rest =>
    let r := classifyHeader rest
    if startswith (bts "##INFO") s then (s :: r.1, r.2)
    else if startswith (bts "##FORMAT") s then (r.1, s :: r.2)
    else r

/-- `VCFReader.generate_schema`: reject versions below 4.0, register the
seven fixed columns, then one column per `##INFO` declaration in header
order, then one column per genotype and `##FORMAT` declaration,
genotype-major. -/
def generate_schema (version : ℚ) (header genotypes : List Bytes) :
    Option BuilderState :=
  if version < 4 then none
  else
    let parts := classifyHeader header
    let st0 : BuilderState := ⟨[], []⟩
    let st1 := add_char_column st0 CHROM_NAME (bts "chromosome")
    let st2 := add_int_column st1 POS_NAME (bts "position")
    let st3 := add_char_column st2 ID_NAME (bts "identifiers")
    let st4 := add_char_column st3 REF_NAME (bts "reference base(s)")
    let st5 := add_char_column st4 ALT_NAME (bts "alternate alleles")
    let st6 := add_float_column st5 QUAL_NAME (bts "quality score")
    let st7 := add_char_column st6 FILTER_NAME (bts "filter status")
    match optFoldl (fun st s => add_column st INFO_NAME s) parts.1 st7 with
    | none => none
    | some st8 =>
      optFoldl (fun st g => optFoldl (fun st2 s => add_column st2 g s) parts.2 st)
        genotypes st8

/-- `VCFReader.parse_version`: split on `v`; with exactly two tokens the
version is the `float` of the second, otherwise it stays at the `-1.0`
sentinel. -/
def parse_version (s : Bytes) : Option ℚ :=
  match pysplitOn 'v' s with
  | [_, t1] => pyFloatQ t1
  | _ => some (-1)

/-- `VCFReader.parse_header_line`: the genotype labels are the whitespace
tokens of the column-header line from the tenth onward. -/
def parse_header_line (s : Bytes) : List Bytes :=
  (pysplitWs s).drop 9

/-! ## Row transcoding -/

/-- The reader state that `VCFReader.rows` can see: the genotype labels and
the truncation flag set by `set_truncate_REF_ALT`. -/
structure ReaderState where
  genotypes : List Bytes
  truncate : Bool
deriving DecidableEq, Repr

/-- `VCFReader.set_truncate_REF_ALT`. -/
def set_truncate_REF_ALT (r : ReaderState) (t : Bool) : ReaderState :=
  { r with truncate := t }

/-- The local bindings `ref_index = 3` and `alt_index = 4` of
`VCFReader.rows`; the source defines them but its row loop never reads
them (nor the truncation flag). -/
def ref_index : Nat := 3

/-- See `ref_index`. -/
def alt_index : Nat := 4

/-- The mappings `VCFReader.rows` builds before processing any line:
`fixed_columns`, `info_columns` and `genotype_columns`. -/
structure RowSetup where
  fixed_columns : List (Nat × Bytes)
  info_columns : Dict Bytes
  genotype_columns : List (Dict Bytes)
deriving DecidableEq, Repr

/-- The `fixed_columns` filter of `VCFReader.rows`: the positions and names
of the fixed VCF columns that appear in the requested column map. -/
def fixedColumnsOf (tc : Dict (Option Conv)) : List (Nat × Bytes) :=
  VCF_FIXED_COLUMNS.enum.filter (fun p => dictMem p.2 tc)

/-- One step of the requested-column classification loop of
`VCFReader.rows`: a key containing the separator is an INFO column when its
first piece is `INFO`, else a genotype column filed under the genotype
named by all pieces but the last (`list.index` failure propagates). -/
def classifyKey (genotypes : List Bytes)
    (acc : Dict Bytes × List (Dict Bytes)) (k : Bytes) :
    Option (Dict Bytes × List (Dict Bytes)) :=
  if COLUMN_SEPARATOR ∈ k then
    let split := pysplitOn COLUMN_SEPARATOR k
    match split.head? with
    | none => none
    | some h =>
      if h = INFO then
        let name := List.intercalate [COLUMN_SEPARATOR] (split.drop 1)
        some (dictSet name k acc.1, acc.2)
      else
        let g := List.intercalate [COLUMN_SEPARATOR] split.dropLast
        match split.getLast? with
        | none => none
        | some name =>
          match pyIndex g genotypes with
          | none => none
          | some idx =>
            match acc.2[idx]? with
            | none => none
            | some gd => some (acc.1, acc.2.set idx (dictSet name k gd))
  else some acc

/-- The full pre-loop setup of `VCFReader.rows`. -/
def rows_setup (genotypes : List Bytes) (tc : Dict (Option Conv)) :
    Option RowSetup :=
  let init : Dict Bytes × List (Dict Bytes) :=
    ([], genotypes.map (fun _ => []))
  (optFoldl (classifyKey genotypes) (dictKeys tc) init).map
    (fun ig => ⟨fixedColumnsOf tc, ig.1, ig.2⟩)

/-- The fixed-column loop of the row loop: for each requested fixed column,
read the field at its position (an out-of-range index fails) and record it
unless it is the missing-value sentinel. -/
def processFixed (fixed : List (Nat × Bytes)) (l : List Bytes)
    (row : Dict Bytes) : Option (Dict Bytes) :=
  optFoldl
    (fun row p =>
      (l[p.1]?).map (fun v =>
        if v ≠ MISSING_VALUE then dictSet p.2 v row else row))
    fixed row

/-- One INFO mapping of the row loop: split at `=`; when the leading token
names a requested INFO column, record the value for a two-token `key=value`
mapping and the literal `"1"` otherwise (the bare-key Flag case). -/
def processInfoToken (info_columns : Dict Bytes) (row : Dict Bytes)
    (mapping : Bytes) : Dict Bytes :=
  let tokens := pysplitOn '=' mapping
  match tokens.head? with
  | none => row
  | some name =>
    match dictGet name info_columns with
    | none => row
    | some col =>
      match tokens with
      | [_, t1] => dictSet col t1 row
      | _ => dictSet col (bts "1") row

/-- One genotype field of one sample: when the field name at position `k` of
the layout names a requested column for this sample, record the token at
position `k` unless it is `"."` or `".,."`. -/
def processSampleField (fmt : List Bytes) (gdict : Dict Bytes)
    (tokens : List Bytes) (row : Dict Bytes) (k : Nat) :
    Option (Dict Bytes) :=
  match fmt[k]? with
  | none => none
  | some fk =>
    match dictGet fk gdict with
    | none => some row
    | some col =>
      match tokens[k]? with
      | none => none
      | some tok =>
        some (if tok ≠ MISSING_VALUE ∧ tok ≠ bts ".,." then dictSet col tok row
          else row)

/-- One sample of the genotype loop: split the sample value at colons and,
only when the token count matches the layout, process each layout position
(looking up this sample's column dictionary inside the loop, as the source
does). -/
def processSample (fmt : List Bytes) (genotype_columns : List (Dict Bytes))
    (row : Dict Bytes) (j : Nat) (gv : Bytes) : Option (Dict Bytes) :=
  let tokens := pysplitOn ':' gv
  if tokens.length = fmt.length then
    optFoldl
      (fun r k =>
        match genotype_columns[j]? with
        | none => none
        | some gdict => processSampleField fmt gdict tokens r k)
      (List.range fmt.length) row
  else some row

/-- The genotype section of the row loop: when the line has more than nine
whitespace fields, field 9 is the colon-separated layout and each later
field is one sample, numbered from zero. -/
def processGenotypes (genotype_columns : List (Dict Bytes)) (l : List Bytes)
    (row : Dict Bytes) : Option (Dict Bytes) :=
  if l.length > 8 then
    match l[8]? with
    | none => none
    | some f8 =>
      let fmt := pysplitOn ':' f8
      optFoldl (fun r p => processSample fmt genotype_columns r p.1 p.2)
        (l.drop 9).enum row
  else some row

/-- The intermediate row map of one line of `VCFReader.rows`: fixed columns,
then the INFO mappings of the unguarded field `l[7]`, then the genotype
section. -/
def buildRawRow (su : RowSetup) (s : Bytes) : Option (Dict Bytes) :=
  let l := pysplitWs s
  match processFixed su.fixed_columns l [] with
  | none => none
  | some row =>
    match l[7]? with
    | none => none
    | some f7 =>
      let row2 :=
        (pysplitOn ';' f7).foldl (processInfoToken su.info_columns) row
      processGenotypes su.genotype_columns l row2

/-- One step of the final loop of `VCFReader.rows`: look the recorded key up
in the requested column map (a missing key fails) and apply its decoder —
the raw value passes through verbatim when the decoder is `None`. -/
def decodeEntry (tc : Dict (Option Conv)) (d : Dict PyVal)
    (kv : Bytes × Bytes) : Option (Dict PyVal) :=
  match dictGet kv.1 tc with
  | none => none
  | some none => some (dictSet kv.1 (PyVal.bytes kv.2) d)
  | some (some c) =>
    match apply_conv c kv.2 with
    | none => none
    | some w => some (dictSet kv.1 w d)

/-- See `decodeEntry`: the loop itself. -/
def decodeRow (tc : Dict (Option Conv)) (row : Dict Bytes) :
    Option (Dict PyVal) :=
  optFoldl (decodeEntry tc) row []

/-- One full row of `VCFReader.rows`: build the intermediate map and decode
it. -/
def transcode_row (su : RowSetup) (tc : Dict (Option Conv)) (s : Bytes) :
    Option (Dict PyVal) :=
  match buildRawRow su s with
  | none => none
  | some row => decodeRow tc row

/-- `VCFReader.rows` over a list of data lines: the pre-loop setup followed
by one transcoded record per line.  The body never consults
`ReaderState.truncate`, exactly as the source's row loop never reads
`self.__truncate`. -/
def rows (r : ReaderState) (tc : Dict (Option Conv)) (lines : List Bytes) :
    Option (List (Dict PyVal)) :=
  match rows_setup r.genotypes tc with
  | none => none
  | some su => optMapM (transcode_row su tc) lines

/-- Modelled from the spec: the truncation policy of §4.4 step 6 (and of the
source's own `--truncate` help text and `set_truncate_REF_ALT` docstring),
which the row loop of `VCFReader.rows` is missing — a reference or
alternate-allele value longer than 253 bytes is cut to its first 253 bytes
with a trailing `'+'` marker appended. -/
def spec_truncate_REF_ALT (v : Bytes) : Bytes :=
  if v.length > 253 then v.take 253 ++ ['+'] else v

/-! ## Dictionary lemmas -/

theorem dictGet_dictSet_self {α : Type} (k : Bytes) (v : α) (d : Dict α) :
    dictGet k (dictSet k v d) = some v := by
  induction d with
  | nil => simp [dictSet, dictGet]
  | cons p rest ih =>
    obtain ⟨k2, v2⟩ := p
    by_cases h : k2 = k
    · simp [dictSet, dictGet, h]
    · simp [dictSet, dictGet, h, ih]

theorem dictGet_dictSet_ne {α : Type} {n k : Bytes} (h : n ≠ k) (v : α)
    (d : Dict α) : dictGet n (dictSet k v d) = dictGet n d := by
  have hkn : ¬k = n := fun e => h e.symm
  induction d with
  | nil => simp [dictSet, dictGet, hkn]
  | cons p rest ih =>
    obtain ⟨k2, v2⟩ := p
    by_cases h2 : k2 = k
    · subst h2
      simp [dictSet, dictGet, hkn]
    · by_cases h3 : k2 = n
      · subst h3
        simp [dictSet, dictGet, h2, h]
      · simp [dictSet, dictGet, h2, h3, ih]

theorem isSome_dictGet_dictSet {α : Type} {n k : Bytes} {v : α} {d : Dict α}
    (h : (dictGet n (dictSet k v d)).isSome = true) :
    n = k ∨ (dictGet n d).isSome = true := by
  by_cases hnk : n = k
  · exact Or.inl hnk
  · right
    rwa [dictGet_dictSet_ne hnk] at h

theorem dictGet_isSome_of_mem_keys {α : Type} {k : Bytes} {d : Dict α}
    (h : k ∈ dictKeys d) : (dictGet k d).isSome = true := by
  induction d with
  | nil => simp [dictKeys] at h
  | cons p rest ih =>
    obtain ⟨k2, v2⟩ := p
    by_cases h2 : k2 = k
    · simp [dictGet, h2]
    · rw [dictGet, if_neg h2]
      rw [dictKeys, List.map_cons] at h
      rcases List.mem_cons.mp h with h1 | h1
      · exact absurd (by simpa using h1.symm) h2
      · exact ih h1

theorem mem_keys_of_dictGet_isSome {α : Type} {k : Bytes} {d : Dict α}
    (h : (dictGet k d).isSome = true) : k ∈ dictKeys d := by
  induction d with
  | nil => simp [dictGet] at h
  | cons p rest ih =>
    obtain ⟨k2, v2⟩ := p
    by_cases h2 : k2 = k
    · exact List.mem_cons.mpr (Or.inl h2.symm)
    · rw [dictGet, if_neg h2] at h
      exact List.mem_cons.mpr (Or.inr (ih h))

theorem dictGet_isSome_of_mem {α : Type} {kv : Bytes × α} {d : Dict α}
    (h : kv ∈ d) : (dictGet kv.1 d).isSome = true := by
  induction d with
  | nil => simp at h
  | cons p rest ih =>
    obtain ⟨k2, v2⟩ := p
    rcases List.mem_cons.mp h with h1 | h1
    · rw [h1]
      simp [dictGet]
    · by_cases h2 : k2 = kv.1
      · simp [dictGet, h2]
      · rw [dictGet, if_neg h2]
        exact ih h1

theorem dictKeys_dictSet {α : Type} (k : Bytes) (v : α) (d : Dict α) :
    dictKeys (dictSet k v d) =
      if (dictGet k d).isSome then dictKeys d else dictKeys d ++ [k] := by
  induction d with
  | nil => simp [dictSet, dictGet, dictKeys]
  | cons p rest ih =>
    obtain ⟨k2, v2⟩ := p
    by_cases h : k2 = k
    · simp [dictSet, dictGet, dictKeys, h]
    · simp only [dictSet, if_neg h, dictKeys, List.map_cons, dictGet]
      simp only [dictKeys] at ih
      rw [ih]
      by_cases h2 : (dictGet k rest).isSome
      · simp [h2]
      · simp [h2]

theorem nodup_dictKeys_dictSet {α : Type} (k : Bytes) (v : α) {d : Dict α}
    (h : (dictKeys d).Nodup) : (dictKeys (dictSet k v d)).Nodup := by
  rw [dictKeys_dictSet]
  by_cases h2 : (dictGet k d).isSome
  · simpa [h2]
  · have hk : k ∉ dictKeys d := fun hm => h2 (dictGet_isSome_of_mem_keys hm)
    rw [if_neg h2]
    simp [List.nodup_append, h, hk]

/-! ## Option-fold lemmas -/

theorem optMapM_eq_none_of_mem {α β : Type} {f : α → Option β} {l : List α}
    {a : α} (ha : a ∈ l) (h : f a = none) : optMapM f l = none := by
  induction l with
  | nil => simp at ha
  | cons b rest ih =>
    rcases List.mem_cons.mp ha with h1 | h1
    · rw [optMapM, ← h1, h]
    · cases hb : f b
      · rw [optMapM, hb]
      · rw [optMapM, hb, ih h1]
        rfl

/-! ## Claim C1 -/

/-- A 300-byte reference-allele value. -/
def c1_ref : Bytes := List.replicate 300 'A'

/-- A data line whose reference-allele field (position 4) is `c1_ref`. -/
def c1_line : Bytes := bts "chr1 100 rs1 " ++ c1_ref ++ bts " G 50 PASS ."

set_option maxRecDepth 40000 in
/-- C1: the claim says that with truncation enabled a reference or
alternate-allele value longer than 253 bytes is cut to 253 bytes with a
marker byte appended before decoding.  The row loop of `VCFReader.rows`
never consults the truncation flag (its `ref_index`/`alt_index` locals are
dead), so a 300-byte reference value reaches the decoder unchanged whether
the flag is set or not, contradicting the `set_truncate_REF_ALT` docstring
and the `--truncate` help text; the truncated form required by the spec
differs from what the code produces. -/
theorem C1_truncation_flag_has_no_effect :
    rows ⟨[], true⟩ [(REF_NAME, none)] [c1_line] =
        some [[(REF_NAME, PyVal.bytes c1_ref)]]
      ∧ rows ⟨[], false⟩ [(REF_NAME, none)] [c1_line] =
        some [[(REF_NAME, PyVal.bytes c1_ref)]]
      ∧ c1_ref.length = 300
      ∧ spec_truncate_REF_ALT c1_ref = c1_ref.take 253 ++ ['+']
      ∧ spec_truncate_REF_ALT c1_ref ≠ c1_ref :=
  ⟨rfl, rfl, by decide, by decide, by decide⟩

/-! ## Claim C10 -/

/-- On a line with fewer than eight whitespace fields the row builder always
fails: the annotation field `l[7]` is read by unguarded index. -/
theorem buildRawRow_none_of_short (su : RowSetup) (s : Bytes)
    (h : (pysplitWs s).length < 8) : buildRawRow su s = none := by
  have h7 : (pysplitWs s)[7]? = none := List.getElem?_eq_none_iff.mpr (by omega)
  simp only [buildRawRow]
  cases hf : processFixed su.fixed_columns (pysplitWs s) [] <;>
    simp [hf, h7]

/-- C10: the row transcoder reads the annotation field at position 8 (and
the requested fixed columns at positions 1–7) by unguarded index, so a line
with fewer than eight whitespace-delimited fields makes row transcoding
fail instead of yielding a record — for the single row and for the whole
row stream containing it. -/
theorem C10_short_line_fails (su : RowSetup) (tc : Dict (Option Conv))
    (r : ReaderState) (lines : List Bytes) (s : Bytes)
    (h : (pysplitWs s).length < 8) :
    transcode_row su tc s = none ∧ (s ∈ lines → rows r tc lines = none) := by
  constructor
  · simp [transcode_row, buildRawRow_none_of_short su s h]
  · intro hs
    rw [rows]
    cases hsu : rows_setup r.genotypes tc with
    | none => rfl
    | some su2 =>
      exact optMapM_eq_none_of_mem hs
        (by simp [transcode_row, buildRawRow_none_of_short su2 s h])

/-- Witness for C10 at the concrete three-field line `"1 2 3"`. -/
theorem C10_short_line_fails_witness :
    transcode_row ⟨[], [], []⟩ [] (bts "1 2 3") = none ∧
      (bts "1 2 3" ∈ [bts "1 2 3"] →
        rows ⟨[], false⟩ [] [bts "1 2 3"] = none) :=
  C10_short_line_fails ⟨[], [], []⟩ [] ⟨[], false⟩ [bts "1 2 3"]
    (bts "1 2 3") (by decide)

/-! ## Claim C8 -/

/-- C8: a sample value whose colon-split token count differs from the
field-layout token count contributes nothing to the row and raises no error
(the sample loop returns the row unchanged), and a genotype token equal to
the `"."` or `".,."` sentinel is never recorded and raises no error. -/
theorem C8_malformed_sample_and_sentinels_skipped :
    (∀ (fmt : List Bytes) (gcols : List (Dict Bytes)) (row : Dict Bytes)
        (j : Nat) (gv : Bytes),
      (pysplitOn ':' gv).length ≠ fmt.length →
      processSample fmt gcols row j gv = some row)
    ∧ (∀ (fmt : List Bytes) (gdict : Dict Bytes) (tokens : List Bytes)
        (row : Dict Bytes) (k : Nat) (fk tok : Bytes),
      fmt[k]? = some fk → tokens[k]? = some tok →
      (tok = MISSING_VALUE ∨ tok = bts ".,.") →
      processSampleField fmt gdict tokens row k = some row) := by
  constructor
  · intro fmt gcols row j gv h
    simp [processSample, h]
  · intro fmt gdict tokens row k fk tok hf ht hs
    simp only [processSampleField, hf]
    cases hd : dictGet fk gdict with
    | none => rfl
    | some col =>
      simp only [ht]
      rcases hs with h1 | h1 <;> subst h1 <;> simp

/-- Witness for C8: a two-field layout against a one-token sample value,
and a `"."` genotype token. -/
theorem C8_witness :
    processSample [bts "GT", bts "DP"] [[(bts "GT", bts "S1_GT")]] [] 0
        (bts "0|1") = some []
      ∧ processSampleField [bts "GT"] [(bts "GT", bts "S1_GT")] [bts "."]
        [] 0 = some [] :=
  ⟨C8_malformed_sample_and_sentinels_skipped.1 _ _ _ _ _ (by decide),
   C8_malformed_sample_and_sentinels_skipped.2 [bts "GT"]
     [(bts "GT", bts "S1_GT")] [bts "."] [] 0 (bts "GT") (bts ".")
     (by decide) (by decide) (Or.inl rfl)⟩

/-! ## Claim C4 -/

/-- C4: a declaration of type `String` induces a byte-string element with
`VARIABLE_SIZE` arity regardless of the declared `Number`; the byte-string
decoder is `None` (the identity) for every arity, and the decode loop
passes a value with a `None` decoder through verbatim. -/
theorem C4_string_variable_and_identity :
    (∀ (line : Bytes) (d : Dict Bytes) (ci : ColumnInfo),
      parse_attrs line = some d → dictGet TYPE d = some STRING →
      parse_column_spec line = some ci →
      ci.element_type = ElemType.bytes ∧ ci.num_elements = VARIABLE_SIZE)
    ∧ (∀ n : Int, get_converter ElemType.bytes n = none)
    ∧ (∀ (tc : Dict (Option Conv)) (k v : Bytes), dictGet k tc = some none →
      decodeRow tc [(k, v)] = some [(k, PyVal.bytes v)]) := by
  refine ⟨?_, ?_, ?_⟩
  · intro line d ci ha ht hci
    simp only [parse_column_spec, ha] at hci
    cases hid : dictGet ID d with
    | none => simp [hid] at hci
    | some name =>
      simp only [hid] at hci
      cases hde : dictGet DESCRIPTION d with
      | none => simp [hde] at hci
      | some descRaw =>
        simp only [hde] at hci
        cases hnum : dictGet NUMBER d with
        | none => simp [hnum] at hci
        | some number =>
          simp only [hnum, ht] at hci
          have htri : type_triple STRING (parsed_num number) =
              some (ElemType.bytes, 1, VARIABLE_SIZE) := rfl
          simp only [htri] at hci
          cases hci
          exact ⟨rfl, rfl⟩
  · intro n
    by_cases h : n = 1 <;> simp [get_converter, h, conv_dict]
  · intro tc k v h
    simp [decodeRow, optFoldl, decodeEntry, h, dictSet]

/-- The declaration line of the C4 witness: `Type=String` with a declared
count of 5. -/
def c4_line : Bytes := bts "##INFO=<ID=AA,Number=5,Type=String,Description=\"x\">"

/-- The attribute dictionary parsed from `c4_line`. -/
def c4_d : Dict Bytes := (parse_attrs c4_line).getD []

/-- The column specification parsed from `c4_line`. -/
def c4_ci : ColumnInfo :=
  (parse_column_spec c4_line).getD ⟨[], [], ElemType.int, 0, 0⟩

/-- Dissection of a successful `parse_column_spec` run into its parts. -/
theorem parse_column_spec_parts {line : Bytes} {ci : ColumnInfo}
    (h : parse_column_spec line = some ci) :
    ∃ d name descRaw number st tri,
      parse_attrs line = some d ∧ dictGet ID d = some name ∧
      dictGet DESCRIPTION d = some descRaw ∧
      dictGet NUMBER d = some number ∧ dictGet TYPE d = some st ∧
      type_triple st (parsed_num number) = some tri ∧
      ci = ⟨name, pystrip '\"' descRaw, tri.1, tri.2.1, tri.2.2⟩ := by
  simp only [parse_column_spec] at h
  cases ha : parse_attrs line with
  | none => simp [ha] at h
  | some d =>
    simp only [ha] at h
    cases hid : dictGet ID d with
    | none => simp [hid] at h
    | some name =>
      simp only [hid] at h
      cases hde : dictGet DESCRIPTION d with
      | none => simp [hde] at h
      | some descRaw =>
        simp only [hde] at h
        cases hnum : dictGet NUMBER d with
        | none => simp [hnum] at h
        | some number =>
          simp only [hnum] at h
          cases ht : dictGet TYPE d with
          | none => simp [ht] at h
          | some st =>
            simp only [ht] at h
            cases htri : type_triple st (parsed_num number) with
            | none => simp [htri] at h
            | some tri =>
              simp only [htri] at h
              cases h
              exact ⟨d, name, descRaw, number, st, tri, rfl, hid, hde, hnum,
                ht, htri, rfl⟩

/-- `parsed_num` on a token that does not parse as an integer. -/
theorem parsed_num_none {number : Bytes} (h : pyInt number = none) :
    parsed_num number = VARIABLE_SIZE := by
  simp [parsed_num, h, VARIABLE_SIZE]

/-- `parsed_num` on a token that parses to a negative integer. -/
theorem parsed_num_neg {number : Bytes} {n : Int} (h : pyInt number = some n)
    (hn : n < 0) : parsed_num number = VARIABLE_SIZE := by
  simp [parsed_num, h, hn, VARIABLE_SIZE]

/-- `parsed_num` on a token that parses to a non-negative integer. -/
theorem parsed_num_nonneg {number : Bytes} {n : Int}
    (h : pyInt number = some n) (hn : 0 ≤ n) : parsed_num number = n := by
  simp [parsed_num, h, not_lt.mpr hn]

set_option maxRecDepth 10000 in
/-- Witness for C4 at `c4_line` and a concrete pass-through decode. -/
theorem C4_witness :
    (c4_ci.element_type = ElemType.bytes ∧ c4_ci.num_elements = VARIABLE_SIZE)
      ∧ get_converter ElemType.bytes 5 = none
      ∧ decodeRow [(bts "X", none)] [(bts "X", bts "a,b")] =
        some [(bts "X", PyVal.bytes (bts "a,b"))] :=
  ⟨C4_string_variable_and_identity.1 c4_line c4_d c4_ci rfl rfl rfl,
   C4_string_variable_and_identity.2.1 5,
   C4_string_variable_and_identity.2.2 [(bts "X", none)] (bts "X")
     (bts "a,b") rfl⟩

/-! ## Claim C5 -/

/-- C5: for the declared types without an arity override (`Integer`,
`Float`, `Character`), a `Number` token that does not parse as an integer
gives `VARIABLE_SIZE` arity, a negative parse is coerced to `VARIABLE_SIZE`,
and a non-negative parse is used as the arity. -/
theorem C5_number_normalization (line : Bytes) (d : Dict Bytes)
    (number st : Bytes) (ci : ColumnInfo)
    (ha : parse_attrs line = some d)
    (hnum : dictGet NUMBER d = some number)
    (ht : dictGet TYPE d = some st)
    (hst : st = INTEGER ∨ st = FLOAT ∨ st = CHARACTER)
    (hci : parse_column_spec line = some ci) :
    (pyInt number = none → ci.num_elements = VARIABLE_SIZE)
      ∧ (∀ n : Int, pyInt number = some n → n < 0 →
          ci.num_elements = VARIABLE_SIZE)
      ∧ (∀ n : Int, pyInt number = some n → 0 ≤ n →
          ci.num_elements = n) := by
  obtain ⟨d2, name, descRaw, number2, st2, tri, ha2, hid, hde, hnum2, ht2,
    htri, hcieq⟩ := parse_column_spec_parts hci
  have hd : d2 = d := Option.some.inj (ha2.symm.trans ha)
  rw [hd] at hnum2 ht2
  have hnn : number2 = number := Option.some.inj (hnum2.symm.trans hnum)
  have hss : st2 = st := Option.some.inj (ht2.symm.trans ht)
  rw [hss] at htri
  have harity : ci.num_elements = parsed_num number2 := by
    rcases hst with h1 | h1 | h1 <;> rw [h1] at htri
    · rw [show type_triple INTEGER (parsed_num number2) =
          some (ElemType.int, 4, parsed_num number2) from rfl] at htri
      cases htri
      rw [hcieq]
    · rw [show type_triple FLOAT (parsed_num number2) =
          some (ElemType.float, 4, parsed_num number2) from rfl] at htri
      cases htri
      rw [hcieq]
    · rw [show type_triple CHARACTER (parsed_num number2) =
          some (ElemType.bytes, 1, parsed_num number2) from rfl] at htri
      cases htri
      rw [hcieq]
  rw [hnn] at harity
  refine ⟨?_, ?_, ?_⟩
  · intro h
    rw [harity, parsed_num_none h]
  · intro n h hn
    rw [harity, parsed_num_neg h hn]
  · intro n h hn
    rw [harity, parsed_num_nonneg h hn]

/-- A `Number=A` (unparsable) `Float` declaration. -/
def c5_lineA : Bytes := bts "##INFO=<ID=AF,Number=A,Type=Float,Description=\"f\">"

/-- Attributes of `c5_lineA`. -/
def c5_dA : Dict Bytes := (parse_attrs c5_lineA).getD []

/-- Column specification of `c5_lineA`. -/
def c5_ciA : ColumnInfo :=
  (parse_column_spec c5_lineA).getD ⟨[], [], ElemType.int, 0, 9⟩

/-- A `Number=-1` (negative) `Integer` declaration. -/
def c5_lineB : Bytes := bts "##INFO=<ID=AB,Number=-1,Type=Integer,Description=\"g\">"

/-- Attributes of `c5_lineB`. -/
def c5_dB : Dict Bytes := (parse_attrs c5_lineB).getD []

/-- Column specification of `c5_lineB`. -/
def c5_ciB : ColumnInfo :=
  (parse_column_spec c5_lineB).getD ⟨[], [], ElemType.int, 0, 9⟩

/-- A `Number=2` `Character` declaration. -/
def c5_lineC : Bytes := bts "##INFO=<ID=AC,Number=2,Type=Character,Description=\"h\">"

/-- Attributes of `c5_lineC`. -/
def c5_dC : Dict Bytes := (parse_attrs c5_lineC).getD []

/-- Column specification of `c5_lineC`. -/
def c5_ciC : ColumnInfo :=
  (parse_column_spec c5_lineC).getD ⟨[], [], ElemType.int, 0, 9⟩

/-- A successful `optMapM` run preserves the length. -/
theorem optMapM_length {α β : Type} {f : α → Option β} {l : List α}
    {res : List β} (h : optMapM f l = some res) : res.length = l.length := by
  induction l generalizing res with
  | nil =>
    simp only [optMapM] at h
    cases h
    rfl
  | cons a rest ih =>
    simp only [optMapM] at h
    cases hf : f a with
    | none => simp [hf] at h
    | some b =>
      simp only [hf] at h
      rcases Option.map_eq_some'.mp h with ⟨l2, hl2, hres⟩
      rw [← hres]
      simp [ih hl2]

/-- Post-composing every element of a successful `optMapM` run. -/
theorem optMapM_map_comp {α β γ : Type} {f : α → Option β} (g : β → γ)
    {l : List α} {res : List β} (h : optMapM f l = some res) :
    optMapM (fun a => (f a).map g) l = some (res.map g) := by
  induction l generalizing res with
  | nil =>
    simp only [optMapM] at h
    cases h
    rfl
  | cons a rest ih =>
    simp only [optMapM] at h
    cases hf : f a with
    | none => simp [hf] at h
    | some b =>
      simp only [hf] at h
      rcases Option.map_eq_some'.mp h with ⟨l2, hl2, hres⟩
      rw [← hres]
      simp only [optMapM, hf, Option.map_some']
      simp [ih hl2]

set_option maxRecDepth 10000 in
/-- Witness for C5 on all three `Number` cases. -/
theorem C5_witness :
    c5_ciA.num_elements = VARIABLE_SIZE
      ∧ c5_ciB.num_elements = VARIABLE_SIZE
      ∧ c5_ciC.num_elements = 2 :=
  ⟨(C5_number_normalization c5_lineA c5_dA (bts "A") FLOAT c5_ciA rfl rfl rfl
      (Or.inr (Or.inl rfl)) rfl).1 rfl,
   (C5_number_normalization c5_lineB c5_dB (bts "-1") INTEGER c5_ciB rfl rfl
      rfl (Or.inl rfl) rfl).2.1 (-1) rfl (by decide),
   (C5_number_normalization c5_lineC c5_dC (bts "2") CHARACTER c5_ciC rfl rfl
      rfl (Or.inr (Or.inr rfl)) rfl).2.2 2 rfl (by decide)⟩

/-! ## Claim C2 -/

/-- A `Number=4, Type=Integer` declaration. -/
def c2_line : Bytes := bts "##INFO=<ID=AC,Number=4,Type=Integer,Description=\"c\">"

/-- The column specification parsed from `c2_line`. -/
def c2_ci : ColumnInfo :=
  (parse_column_spec c2_line).getD ⟨[], [], ElemType.bytes, 0, 9⟩

/-- C2: for a numeric element type with an arity other than exactly-one, the
selected decoder splits the raw value on a comma and applies the scalar
parser to each token, producing a sequence of the same length as the token
list; a `Number=4, Type=Integer` declaration induces an integer column of
arity 4 whose decoder turns a well-formed four-token value into exactly four
integers. -/
theorem C2_numeric_multivalue_decoder :
    (∀ (et : ElemType) (n : Int) (c : Conv),
      (et = ElemType.int ∨ et = ElemType.float) → n ≠ 1 →
      get_converter et n = some c →
      ∀ (v : Bytes) (zs : List PyVal),
        optMapM (fun t => apply_scalar et t) (pysplitOn ',' v) = some zs →
        apply_conv c v = some (PyVal.list zs) ∧
          zs.length = (pysplitOn ',' v).length)
    ∧ (∀ ci : ColumnInfo, parse_column_spec c2_line = some ci →
        ci.element_type = ElemType.int ∧ ci.num_elements = 4 ∧
          get_converter ci.element_type ci.num_elements =
            some (Conv.eachTok ElemType.int))
    ∧ (∀ (v : Bytes) (zs : List Int),
        optMapM pyInt (pysplitOn ',' v) = some zs →
        (pysplitOn ',' v).length = 4 →
        apply_conv (Conv.eachTok ElemType.int) v =
            some (PyVal.list (zs.map PyVal.int)) ∧ zs.length = 4) := by
  refine ⟨?_, ?_, ?_⟩
  · intro et n c hor hn hc v zs hm
    rcases hor with h1 | h1 <;> subst h1
    · rw [get_converter, if_neg hn] at hc
      have hc2 : c = Conv.eachTok ElemType.int :=
        (Option.some.inj hc).symm
      subst hc2
      exact ⟨by simp [apply_conv, hm], optMapM_length hm⟩
    · rw [get_converter, if_neg hn] at hc
      have hc2 : c = Conv.eachTok ElemType.float :=
        (Option.some.inj hc).symm
      subst hc2
      exact ⟨by simp [apply_conv, hm], optMapM_length hm⟩
  · intro ci h
    have h2 : parse_column_spec c2_line =
        some ⟨bts "AC", bts "c", ElemType.int, 4, 4⟩ := by
      set_option maxRecDepth 10000 in rfl
    rw [h2] at h
    cases h
    exact ⟨rfl, rfl, rfl⟩
  · intro v zs hm hlen
    have hm2 : optMapM (fun a => (pyInt a).map PyVal.int)
        (pysplitOn ',' v) = some (zs.map PyVal.int) :=
      optMapM_map_comp PyVal.int hm
    refine ⟨by simp [apply_conv, apply_scalar, hm2], ?_⟩
    rw [← hlen]
    exact optMapM_length hm

set_option maxRecDepth 10000 in
/-- Witness for C2: the generic comma-splitting decoder at `"1,2"`, the
`c2_line` column, and its decoder at the four-token value `"7,8,9,10"`. -/
theorem C2_witness :
    (apply_conv (Conv.eachTok ElemType.int) (bts "1,2") =
        some (PyVal.list [PyVal.int 1, PyVal.int 2])
      ∧ ([PyVal.int 1, PyVal.int 2] : List PyVal).length =
        (pysplitOn ',' (bts "1,2")).length)
    ∧ (c2_ci.element_type = ElemType.int ∧ c2_ci.num_elements = 4 ∧
        get_converter c2_ci.element_type c2_ci.num_elements =
          some (Conv.eachTok ElemType.int))
    ∧ (apply_conv (Conv.eachTok ElemType.int) (bts "7,8,9,10") =
        some (PyVal.list ([7, 8, 9, 10].map PyVal.int))
      ∧ ([7, 8, 9, 10] : List Int).length = 4) :=
  ⟨C2_numeric_multivalue_decoder.1 ElemType.int 0 (Conv.eachTok ElemType.int)
      (Or.inl rfl) (by decide) rfl (bts "1,2")
      [PyVal.int 1, PyVal.int 2] rfl,
   C2_numeric_multivalue_decoder.2.1 c2_ci rfl,
   C2_numeric_multivalue_decoder.2.2 (bts "7,8,9,10") [7, 8, 9, 10] rfl rfl⟩

/-! ## Claim C6 -/

theorem dropWhile_eq_self_of {p : Char → Bool} {l : Bytes}
    (h : ∀ c ∈ l, p c = false) : l.dropWhile p = l := by
  cases l with
  | nil => rfl
  | cons a t =>
    rw [List.dropWhile_cons, h a (List.mem_cons_self a t)]
    simp

theorem stripWs_eq_self {s : Bytes} (h : ∀ c ∈ s, isPyWs c = false) :
    stripWs s = s := by
  rw [stripWs, dropWhile_eq_self_of h,
    dropWhile_eq_self_of (fun c hc => h c (List.mem_reverse.mp hc)),
    List.reverse_reverse]

theorem takeWhile_eq_self_of {p : Char → Bool} {l : Bytes}
    (h : ∀ c ∈ l, p c = true) : l.takeWhile p = l := by
  induction l with
  | nil => rfl
  | cons a t ih =>
    rw [List.takeWhile_cons, h a (List.mem_cons_self a t)]
    simp [ih (fun c hc => h c (List.mem_cons_of_mem a hc))]

theorem dropWhile_eq_nil_of {p : Char → Bool} {l : Bytes}
    (h : ∀ c ∈ l, p c = true) : l.dropWhile p = [] := by
  induction l with
  | nil => rfl
  | cons a t ih =>
    rw [List.dropWhile_cons, h a (List.mem_cons_self a t)]
    simp [ih (fun c hc => h c (List.mem_cons_of_mem a hc))]

theorem takeWhile_append_cons {p : Char → Bool} {l : Bytes} {a : Char}
    {r : Bytes} (hl : ∀ c ∈ l, p c = true) (ha : p a = false) :
    (l ++ a :: r).takeWhile p = l := by
  induction l with
  | nil => simp [List.takeWhile_cons, ha]
  | cons b t ih =>
    rw [List.cons_append, List.takeWhile_cons,
      hl b (List.mem_cons_self b t)]
    simp [ih (fun c hc => hl c (List.mem_cons_of_mem b hc))]

theorem dropWhile_append_cons {p : Char → Bool} {l : Bytes} {a : Char}
    {r : Bytes} (hl : ∀ c ∈ l, p c = true) (ha : p a = false) :
    (l ++ a :: r).dropWhile p = a :: r := by
  induction l with
  | nil => simp [List.dropWhile_cons, ha]
  | cons b t ih =>
    rw [List.cons_append, List.dropWhile_cons,
      hl b (List.mem_cons_self b t)]
    simp [ih (fun c hc => hl c (List.mem_cons_of_mem b hc))]

theorem isPyWs_eq_false_of_isDigit {c : Char} (h : c.isDigit = true) :
    isPyWs c = false := by
  have h1 : ¬c = ' ' := fun e => absurd (e ▸ h) (by decide)
  have h2 : ¬c = '\t' := fun e => absurd (e ▸ h) (by decide)
  have h3 : ¬c = '\n' := fun e => absurd (e ▸ h) (by decide)
  have h4 : ¬c = '\r' := fun e => absurd (e ▸ h) (by decide)
  have h5 : ¬c = '\x0b' := fun e => absurd (e ▸ h) (by decide)
  have h6 : ¬c = '\x0c' := fun e => absurd (e ▸ h) (by decide)
  simp [isPyWs, h1, h2, h3, h4, h5, h6]

/-- C6: a version line that splits at `v` into exactly two tokens with a
numeric `X.Y` second token parses to the value `X.Y`; any line whose split
does not have exactly two tokens parses to the invalid `-1.0` sentinel. -/
theorem C6_version_parse :
    (∀ s t0 t1 xd yd : Bytes,
      pysplitOn 'v' s = [t0, t1] → t1 = xd ++ '.' :: yd →
      xd ≠ [] → xd.all Char.isDigit = true →
      yd ≠ [] → yd.all Char.isDigit = true →
      parse_version s =
        some ((natOfDigits xd : ℚ) +
          (natOfDigits yd : ℚ) / (10 : ℚ) ^ yd.length))
    ∧ (∀ s : Bytes, (pysplitOn 'v' s).length ≠ 2 →
        parse_version s = some (-1)) := by
  constructor
  · intro s t0 t1 xd yd hs ht hxne hxd hyne hyd
    subst ht
    simp only [parse_version, hs]
    have hallws : ∀ c ∈ xd ++ '.' :: yd, isPyWs c = false := by
      intro c hc
      rcases List.mem_append.mp hc with hc | hc
      · exact isPyWs_eq_false_of_isDigit (List.all_eq_true.mp hxd c hc)
      · rcases List.mem_cons.mp hc with rfl | hc
        · decide
        · exact isPyWs_eq_false_of_isDigit (List.all_eq_true.mp hyd c hc)
    simp only [pyFloatQ, stripWs_eq_self hallws]
    cases xd with
    | nil => exact absurd rfl hxne
    | cons x xs =>
      have hxdig : x.isDigit = true :=
        List.all_eq_true.mp hxd x (List.mem_cons_self x xs)
      have hxsdig : ∀ c ∈ x :: xs, Char.isDigit c = true :=
        List.all_eq_true.mp hxd
      have hydig : ∀ c ∈ yd, Char.isDigit c = true :=
        List.all_eq_true.mp hyd
      have hxp : ¬x = '+' := fun e => absurd (e ▸ hxdig) (by decide)
      have hxm : ¬x = '-' := fun e => absurd (e ▸ hxdig) (by decide)
      have hip : (x :: (xs ++ '.' :: yd)).takeWhile Char.isDigit = x :: xs := by
        rw [← List.cons_append]
        exact takeWhile_append_cons hxsdig (by decide)
      have hdp : (x :: (xs ++ '.' :: yd)).dropWhile Char.isDigit = '.' :: yd := by
        rw [← List.cons_append]
        exact dropWhile_append_cons hxsdig (by decide)
      simp only [List.cons_append, if_neg hxp, if_neg hxm, pyFloatBody,
        hip, hdp, takeWhile_eq_self_of hydig, dropWhile_eq_nil_of hydig]
      simp
  · intro s h
    rcases hl : pysplitOn 'v' s with _ | ⟨a, _ | ⟨b, _ | ⟨c, tail3⟩⟩⟩
    · simp [parse_version, hl]
    · simp [parse_version, hl]
    · exact absurd (by rw [hl]; rfl) h
    · simp [parse_version, hl]

/-- Witness for C6 at `v4.1` and at a line with no version token. -/
theorem C6_witness :
    parse_version (bts "##fileformat=VCFv4.1") =
        some ((natOfDigits (bts "4") : ℚ) +
          (natOfDigits (bts "1") : ℚ) / (10 : ℚ) ^ (bts "1").length)
      ∧ parse_version (bts "##fileformat=VCF") = some (-1) :=
  ⟨C6_version_parse.1 (bts "##fileformat=VCFv4.1") (bts "##fileformat=VCF")
      (bts "4.1") (bts "4") (bts "1") (by decide) (by decide) (by decide)
      (by decide) (by decide) (by decide),
   C6_version_parse.2 (bts "##fileformat=VCF") (by decide)⟩

/-! ## Claim C7 -/

/-- The schema field that `add_column` registers for a parsed column
specification under the namespace `pfx`. -/
def field_of_spec (pfx : Bytes) (ci : ColumnInfo) : SchemaField :=
  ⟨pfx ++ COLUMN_SEPARATOR :: ci.name,
   if ci.num_elements = 1 ∨ ci.element_type = ElemType.bytes then
     FieldType.scalar ci.element_type
   else FieldType.array ci.element_type,
   true⟩

/-- The fields appended by a fold of `add_column` over declaration lines:
one `field_of_spec` per line, in line order. -/
theorem optFoldl_add_column_fields (pfx : Bytes) (lines : List Bytes)
    (st st2 : BuilderState) (cis : List ColumnInfo)
    (hm : optMapM parse_column_spec lines = some cis)
    (hf : optFoldl (fun st s => add_column st pfx s) lines st = some st2) :
    st2.fields = st.fields ++ cis.map (field_of_spec pfx) := by
  induction lines generalizing st cis with
  | nil =>
    simp only [optMapM] at hm
    simp only [optFoldl] at hf
    cases hm
    cases hf
    simp
  | cons line rest ih =>
    simp only [optMapM] at hm
    cases hpc : parse_column_spec line with
    | none => simp [hpc] at hm
    | some ci =>
      simp only [hpc] at hm
      rcases Option.map_eq_some'.mp hm with ⟨cis2, hcis2, hcons⟩
      simp only [optFoldl, add_column, hpc, Option.map_some'] at hf
      have hstep := ih (add_column_definition st
        (pfx ++ COLUMN_SEPARATOR :: ci.name) ci.description ci.element_type
        ci.num_elements) cis2 hcis2 hf
      rw [hstep, ← hcons]
      show st.fields ++ [field_of_spec pfx ci] ++ _ = _
      simp

/-- The fields appended by the genotype double fold: per genotype, one
`field_of_spec` per format declaration, genotype-major. -/
theorem optFoldl_genotype_fields (gts fmtLines : List Bytes)
    (st st2 : BuilderState) (cis : List ColumnInfo)
    (hm : optMapM parse_column_spec fmtLines = some cis)
    (hf : optFoldl
      (fun st g => optFoldl (fun st2 s => add_column st2 g s) fmtLines st)
      gts st = some st2) :
    st2.fields = st.fields ++ gts.flatMap (fun g => cis.map (field_of_spec g)) := by
  induction gts generalizing st with
  | nil =>
    simp only [optFoldl] at hf
    cases hf
    simp
  | cons g rest ih =>
    simp only [optFoldl] at hf
    cases hg : optFoldl (fun st2 s => add_column st2 g s) fmtLines st with
    | none => rw [hg] at hf; cases hf
    | some st1 =>
      rw [hg] at hf
      have h1 := optFoldl_add_column_fields g fmtLines st st1 cis hm hg
      have h2 := ih st1 hf
      rw [h2, h1]
      simp [List.flatMap]

/-- C7: for a supported version, the emitted schema's field order is the
seven fixed columns (chromosome byte-string, position integer, identifier
byte-string, reference byte-string, alternate byte-string, quality
floating-point, filter byte-string), then one column per `##INFO`
declaration in header order, then genotype × `##FORMAT` columns in
genotype-major order; every field is nullable. -/
theorem C7_schema_field_order (version : ℚ) (header genotypes : List Bytes)
    (out : BuilderState) (infoCis fmtCis : List ColumnInfo)
    (hgen : generate_schema version header genotypes = some out)
    (hinfo : optMapM parse_column_spec (classifyHeader header).1 = some infoCis)
    (hfmt : optMapM parse_column_spec (classifyHeader header).2 = some fmtCis) :
    out.fields =
      [⟨CHROM_NAME, FieldType.scalar ElemType.bytes, true⟩,
       ⟨POS_NAME, FieldType.scalar ElemType.int, true⟩,
       ⟨ID_NAME, FieldType.scalar ElemType.bytes, true⟩,
       ⟨REF_NAME, FieldType.scalar ElemType.bytes, true⟩,
       ⟨ALT_NAME, FieldType.scalar ElemType.bytes, true⟩,
       ⟨QUAL_NAME, FieldType.scalar ElemType.float, true⟩,
       ⟨FILTER_NAME, FieldType.scalar ElemType.bytes, true⟩]
        ++ infoCis.map (field_of_spec INFO_NAME)
        ++ genotypes.flatMap (fun g => fmtCis.map (field_of_spec g))
      ∧ ∀ f ∈ out.fields, f.nullable = true := by
  by_cases hv : version < 4
  · simp [generate_schema, hv] at hgen
  · simp only [generate_schema, if_neg hv] at hgen
    cases h8 : optFoldl (fun st s => add_column st INFO_NAME s)
        (classifyHeader header).1
        (add_char_column (add_float_column (add_char_column (add_char_column
          (add_char_column (add_int_column (add_char_column ⟨[], []⟩
            CHROM_NAME (bts "chromosome")) POS_NAME (bts "position"))
            ID_NAME (bts "identifiers")) REF_NAME (bts "reference base(s)"))
            ALT_NAME (bts "alternate alleles")) QUAL_NAME
            (bts "quality score")) FILTER_NAME (bts "filter status")) with
    | none => rw [h8] at hgen; cases hgen
    | some st8 =>
      rw [h8] at hgen
      have hfields8 := optFoldl_add_column_fields INFO_NAME
        (classifyHeader header).1 _ st8 infoCis hinfo h8
      have hfieldsOut := optFoldl_genotype_fields genotypes
        (classifyHeader header).2 st8 out fmtCis hfmt hgen
      have hmain : out.fields =
          [(⟨CHROM_NAME, FieldType.scalar ElemType.bytes, true⟩ : SchemaField),
           ⟨POS_NAME, FieldType.scalar ElemType.int, true⟩,
           ⟨ID_NAME, FieldType.scalar ElemType.bytes, true⟩,
           ⟨REF_NAME, FieldType.scalar ElemType.bytes, true⟩,
           ⟨ALT_NAME, FieldType.scalar ElemType.bytes, true⟩,
           ⟨QUAL_NAME, FieldType.scalar ElemType.float, true⟩,
           ⟨FILTER_NAME, FieldType.scalar ElemType.bytes, true⟩]
            ++ infoCis.map (field_of_spec INFO_NAME)
            ++ genotypes.flatMap (fun g => fmtCis.map (field_of_spec g)) := by
        rw [hfieldsOut, hfields8]
        simp [add_char_column, add_float_column, add_int_column,
          add_column_definition]
      refine ⟨hmain, ?_⟩
      intro f hf
      rw [hmain] at hf
      rcases List.mem_append.mp hf with hf | hf
      · rcases List.mem_append.mp hf with hf | hf
        · fin_cases hf <;> rfl
        · rcases List.mem_map.mp hf with ⟨ci, _, hfe⟩
          rw [← hfe]
          rfl
      · rcases List.mem_flatMap.mp hf with ⟨g, _, hfg⟩
        rcases List.mem_map.mp hfg with ⟨ci, _, hfe⟩
        rw [← hfe]
        rfl

/-- The header of the C7 witness: two annotation and two per-sample-field
declarations, plus lines of other kinds that the schema builder skips. -/
def c7_header : List Bytes :=
  [bts "##fileformat=VCFv4.1",
   bts "##INFO=<ID=AC,Number=4,Type=Integer,Description=\"a\">",
   bts "##INFO=<ID=DB,Number=0,Type=Flag,Description=\"b\">",
   bts "##FILTER=<ID=q10,Number=0,Type=Flag,Description=\"c\">",
   bts "##FORMAT=<ID=GT,Number=1,Type=String,Description=\"d\">",
   bts "##FORMAT=<ID=DP,Number=1,Type=Integer,Description=\"e\">"]

/-- The three genotype labels of the C7 witness. -/
def c7_genotypes : List Bytes := [bts "S1", bts "S2", bts "S3"]

/-- The schema built from the C7 witness header. -/
def c7_out : BuilderState :=
  (generate_schema 4 c7_header c7_genotypes).getD ⟨[], []⟩

/-- Annotation column specifications of the C7 witness header. -/
def c7_infoCis : List ColumnInfo :=
  (optMapM parse_column_spec (classifyHeader c7_header).1).getD []

/-- Per-sample-field column specifications of the C7 witness header. -/
def c7_fmtCis : List ColumnInfo :=
  (optMapM parse_column_spec (classifyHeader c7_header).2).getD []

set_option maxRecDepth 40000 in
/-- Witness for C7: 7 fixed + 2 annotation + 3 × 2 genotype columns, in
order. -/
theorem C7_witness :
    c7_out.fields =
      [⟨CHROM_NAME, FieldType.scalar ElemType.bytes, true⟩,
       ⟨POS_NAME, FieldType.scalar ElemType.int, true⟩,
       ⟨ID_NAME, FieldType.scalar ElemType.bytes, true⟩,
       ⟨REF_NAME, FieldType.scalar ElemType.bytes, true⟩,
       ⟨ALT_NAME, FieldType.scalar ElemType.bytes, true⟩,
       ⟨QUAL_NAME, FieldType.scalar ElemType.float, true⟩,
       ⟨FILTER_NAME, FieldType.scalar ElemType.bytes, true⟩]
        ++ c7_infoCis.map (field_of_spec INFO_NAME)
        ++ c7_genotypes.flatMap (fun g => c7_fmtCis.map (field_of_spec g)) :=
  (C7_schema_field_order 4 c7_header c7_genotypes c7_out c7_infoCis
    c7_fmtCis rfl rfl rfl).1

/-! ## Claim C9 -/

/-- The classification fold of `rows_setup` only ever records requested
column names (keys of `tc`) as values of the INFO and genotype maps. -/
theorem classify_fold_invariant (genotypes : List Bytes)
    (tc : Dict (Option Conv)) (ks : List Bytes)
    (hks : ∀ k ∈ ks, (dictGet k tc).isSome = true)
    (acc res : Dict Bytes × List (Dict Bytes))
    (hinv1 : ∀ n c, dictGet n acc.1 = some c → (dictGet c tc).isSome = true)
    (hinv2 : ∀ (j : Nat) (gd : Dict Bytes), acc.2[j]? = some gd →
      ∀ n c, dictGet n gd = some c → (dictGet c tc).isSome = true)
    (hf : optFoldl (classifyKey genotypes) ks acc = some res) :
    (∀ n c, dictGet n res.1 = some c → (dictGet c tc).isSome = true) ∧
      (∀ (j : Nat) (gd : Dict Bytes), res.2[j]? = some gd →
        ∀ n c, dictGet n gd = some c → (dictGet c tc).isSome = true) := by
  induction ks generalizing acc with
  | nil =>
    simp only [optFoldl] at hf
    cases hf
    exact ⟨hinv1, hinv2⟩
  | cons k rest ih =>
    simp only [optFoldl] at hf
    cases hk : classifyKey genotypes acc k with
    | none => rw [hk] at hf; cases hf
    | some acc2 =>
      rw [hk] at hf
      have hktc : (dictGet k tc).isSome = true :=
        hks k (List.mem_cons_self k rest)
      have hrest : ∀ k2 ∈ rest, (dictGet k2 tc).isSome = true :=
        fun k2 hk2 => hks k2 (List.mem_cons_of_mem k hk2)
      have hstep : (∀ n c, dictGet n acc2.1 = some c →
            (dictGet c tc).isSome = true) ∧
          (∀ (j : Nat) (gd : Dict Bytes), acc2.2[j]? = some gd →
            ∀ n c, dictGet n gd = some c → (dictGet c tc).isSome = true) := by
        simp only [classifyKey] at hk
        by_cases hsep : COLUMN_SEPARATOR ∈ k
        · simp only [if_pos hsep] at hk
          cases hh : (pysplitOn COLUMN_SEPARATOR k).head? with
          | none => rw [hh] at hk; cases hk
          | some h0 =>
            rw [hh] at hk
            by_cases hinfo : h0 = INFO
            · simp only [if_pos hinfo] at hk
              cases hk
              refine ⟨?_, hinv2⟩
              intro n c hget
              by_cases hn : n =
                  List.intercalate [COLUMN_SEPARATOR]
                    ((pysplitOn COLUMN_SEPARATOR k).drop 1)
              · rw [hn, dictGet_dictSet_self] at hget
                cases hget
                exact hktc
              · rw [dictGet_dictSet_ne hn] at hget
                exact hinv1 n c hget
            · simp only [if_neg hinfo] at hk
              cases hlast : (pysplitOn COLUMN_SEPARATOR k).getLast? with
              | none => rw [hlast] at hk; cases hk
              | some name =>
                simp only [hlast] at hk
                cases hidx : pyIndex
                    (List.intercalate [COLUMN_SEPARATOR]
                      (pysplitOn COLUMN_SEPARATOR k).dropLast) genotypes with
                | none => rw [hidx] at hk; cases hk
                | some idx =>
                  simp only [hidx] at hk
                  cases hgd : acc.2[idx]? with
                  | none => rw [hgd] at hk; cases hk
                  | some gd =>
                    simp only [hgd] at hk
                    cases hk
                    refine ⟨hinv1, ?_⟩
                    intro j gd2 hj n c hget
                    by_cases hji : idx = j
                    · subst hji
                      obtain ⟨hlt, -⟩ := List.getElem?_eq_some.mp hgd
                      rw [List.getElem?_set_self hlt] at hj
                      cases hj
                      by_cases hn : n = name
                      · rw [hn, dictGet_dictSet_self] at hget
                        cases hget
                        exact hktc
                      · rw [dictGet_dictSet_ne hn] at hget
                        exact hinv2 idx gd hgd n c hget
                    · rw [List.getElem?_set_ne hji] at hj
                      exact hinv2 j gd2 hj n c hget
        · simp only [if_neg hsep] at hk
          cases hk
          exact ⟨hinv1, hinv2⟩
      exact ih hrest acc2 hstep.1 hstep.2 hf

/-- A requested fixed column named by `fixedColumnsOf` is a key of the
column map. -/
theorem fixedColumnsOf_mem {tc : Dict (Option Conv)} {p : Nat × Bytes}
    (h : p ∈ fixedColumnsOf tc) : (dictGet p.2 tc).isSome = true :=
  (List.mem_filter.mp h).2

/-- Dissection of a successful `rows_setup` run: the fixed columns are the
filtered fixed list, and every INFO or genotype map value is a key of the
requested column map. -/
theorem rows_setup_parts {genotypes : List Bytes} {tc : Dict (Option Conv)}
    {su : RowSetup} (h : rows_setup genotypes tc = some su) :
    su.fixed_columns = fixedColumnsOf tc
      ∧ (∀ n c, dictGet n su.info_columns = some c →
          (dictGet c tc).isSome = true)
      ∧ (∀ (j : Nat) (gd : Dict Bytes), su.genotype_columns[j]? = some gd →
          ∀ n c, dictGet n gd = some c → (dictGet c tc).isSome = true) := by
  simp only [rows_setup] at h
  rcases Option.map_eq_some'.mp h with ⟨ig, hig, hsu⟩
  have hinv := classify_fold_invariant genotypes tc (dictKeys tc)
    (fun k hk => dictGet_isSome_of_mem_keys hk)
    ([], genotypes.map (fun _ => [])) ig
    (by intro n c hc; simp [dictGet] at hc)
    (by
      intro j gd hj n c hc
      rw [List.getElem?_map] at hj
      rcases Option.map_eq_some'.mp hj with ⟨g, _, hgd⟩
      rw [← hgd] at hc
      simp [dictGet] at hc)
    hig
  cases hsu
  exact ⟨rfl, hinv.1, hinv.2⟩

/-- Keys recorded by the fixed-column loop come from the supplied fixed
column list (or were already present). -/
theorem processFixed_keys {fixed : List (Nat × Bytes)} {l : List Bytes}
    {row0 row : Dict Bytes} (h : processFixed fixed l row0 = some row)
    (k : Bytes) (hk : (dictGet k row).isSome = true) :
    (dictGet k row0).isSome = true ∨ ∃ p ∈ fixed, p.2 = k := by
  induction fixed generalizing row0 with
  | nil =>
    simp only [processFixed, optFoldl] at h
    cases h
    exact Or.inl hk
  | cons p rest ih =>
    simp only [processFixed, optFoldl] at h
    cases hg : l[p.1]? with
    | none => simp [hg] at h
    | some v =>
      simp only [hg, Option.map_some'] at h
      rcases ih (show processFixed rest l _ = some row from h) with h1 | h2
      · by_cases hv : v ≠ MISSING_VALUE
        · rw [if_pos hv] at h1
          rcases isSome_dictGet_dictSet h1 with hkp | hold
          · exact Or.inr ⟨p, List.mem_cons_self p rest, hkp.symm⟩
          · exact Or.inl hold
        · rw [if_neg hv] at h1
          exact Or.inl h1
      · rcases h2 with ⟨q, hq, hq2⟩
        exact Or.inr ⟨q, List.mem_cons_of_mem p hq, hq2⟩

/-- Keys recorded by one INFO mapping come from the INFO column map values
(or were already present). -/
theorem processInfoToken_keys (ic : Dict Bytes) (row : Dict Bytes)
    (t k : Bytes)
    (hk : (dictGet k (processInfoToken ic row t)).isSome = true) :
    (dictGet k row).isSome = true ∨ ∃ n, dictGet n ic = some k := by
  simp only [processInfoToken] at hk
  cases hh : (pysplitOn '=' t).head? with
  | none =>
    simp only [hh] at hk
    exact Or.inl hk
  | some name =>
    simp only [hh] at hk
    cases hc : dictGet name ic with
    | none =>
      simp only [hc] at hk
      exact Or.inl hk
    | some col =>
      simp only [hc] at hk
      have hds : ∀ v : Bytes, (dictGet k (dictSet col v row)).isSome = true →
          (dictGet k row).isSome = true ∨ ∃ n, dictGet n ic = some k := by
        intro v hv
        rcases isSome_dictGet_dictSet hv with heq | hold
        · exact Or.inr ⟨name, heq ▸ hc⟩
        · exact Or.inl hold
      rcases hsplit : pysplitOn '=' t with _ | ⟨a, _ | ⟨b, _ | ⟨c2, r⟩⟩⟩ <;>
        · rw [hsplit] at hk
          exact hds _ hk

/-- Keys recorded by the INFO fold come from the INFO column map values
(or were already present). -/
theorem infoFold_keys (ic : Dict Bytes) (toks : List Bytes)
    (row0 : Dict Bytes) (k : Bytes)
    (hk : (dictGet k (toks.foldl (processInfoToken ic) row0)).isSome = true) :
    (dictGet k row0).isSome = true ∨ ∃ n, dictGet n ic = some k := by
  induction toks generalizing row0 with
  | nil => exact Or.inl hk
  | cons t rest ih =>
    rw [List.foldl_cons] at hk
    rcases ih _ hk with h1 | h2
    · exact processInfoToken_keys ic row0 t k h1
    · exact Or.inr h2

/-- Keys recorded by one genotype field come from the sample's genotype
column dictionary (or were already present). -/
theorem processSampleField_keys {fmt : List Bytes} {gdict : Dict Bytes}
    {tokens : List Bytes} {row row2 : Dict Bytes} {k : Nat}
    (h : processSampleField fmt gdict tokens row k = some row2)
    (x : Bytes) (hx : (dictGet x row2).isSome = true) :
    (dictGet x row).isSome = true ∨ ∃ n, dictGet n gdict = some x := by
  simp only [processSampleField] at h
  cases hf : fmt[k]? with
  | none => rw [hf] at h; cases h
  | some fk =>
    simp only [hf] at h
    cases hd : dictGet fk gdict with
    | none =>
      simp only [hd] at h
      cases h
      exact Or.inl hx
    | some col =>
      simp only [hd] at h
      cases ht : tokens[k]? with
      | none => rw [ht] at h; cases h
      | some tok =>
        simp only [ht] at h
        cases h
        by_cases hcond : tok ≠ MISSING_VALUE ∧ tok ≠ bts ".,."
        · rw [if_pos hcond] at hx
          rcases isSome_dictGet_dictSet hx with heq | hold
          · exact Or.inr ⟨fk, heq ▸ hd⟩
          · exact Or.inl hold
        · rw [if_neg hcond] at hx
          exact Or.inl hx

/-- Keys recorded by the per-layout-position fold of one sample. -/
theorem sampleFold_keys {fmt tokens : List Bytes} {gcols : List (Dict Bytes)}
    {j : Nat} (ks : List Nat) {row row2 : Dict Bytes}
    (h : optFoldl
      (fun r k =>
        match gcols[j]? with
        | none => none
        | some gdict => processSampleField fmt gdict tokens r k)
      ks row = some row2)
    (x : Bytes) (hx : (dictGet x row2).isSome = true) :
    (dictGet x row).isSome = true ∨
      ∃ gd : Dict Bytes, gcols[j]? = some gd ∧ ∃ n, dictGet n gd = some x := by
  induction ks generalizing row with
  | nil =>
    cases h
    exact Or.inl hx
  | cons k2 rest ih =>
    simp only [optFoldl] at h
    cases hstep : (match gcols[j]? with
        | none => none
        | some gdict => processSampleField fmt gdict tokens row k2) with
    | none => rw [hstep] at h; cases h
    | some row1 =>
      simp only [hstep] at h
      rcases ih h with h1 | h2
      · cases hg : gcols[j]? with
        | none => rw [hg] at hstep; cases hstep
        | some gdict =>
          simp only [hg] at hstep
          rcases processSampleField_keys hstep x h1 with ha | ⟨n, hn⟩
          · exact Or.inl ha
          · exact Or.inr ⟨gdict, rfl, n, hn⟩
      · exact Or.inr h2

/-- Keys recorded by one sample of the genotype loop. -/
theorem processSample_keys {fmt : List Bytes} {gcols : List (Dict Bytes)}
    {row row2 : Dict Bytes} {j : Nat} {gv : Bytes}
    (h : processSample fmt gcols row j gv = some row2)
    (x : Bytes) (hx : (dictGet x row2).isSome = true) :
    (dictGet x row).isSome = true ∨
      ∃ gd : Dict Bytes, gcols[j]? = some gd ∧ ∃ n, dictGet n gd = some x := by
  simp only [processSample] at h
  by_cases hlen : (pysplitOn ':' gv).length = fmt.length
  · rw [if_pos hlen] at h
    exact sampleFold_keys _ h x hx
  · rw [if_neg hlen] at h
    cases h
    exact Or.inl hx

/-- Keys recorded by the whole genotype section. -/
theorem processGenotypes_keys {gcols : List (Dict Bytes)} {l : List Bytes}
    {row row2 : Dict Bytes} (h : processGenotypes gcols l row = some row2)
    (x : Bytes) (hx : (dictGet x row2).isSome = true) :
    (dictGet x row).isSome = true ∨
      ∃ (j : Nat) (gd : Dict Bytes), gcols[j]? = some gd ∧ ∃ n, dictGet n gd = some x := by
  simp only [processGenotypes] at h
  by_cases hlen : l.length > 8
  · rw [if_pos hlen] at h
    cases h8 : l[8]? with
    | none => rw [h8] at h; cases h
    | some f8 =>
      simp only [h8] at h
      have hgen : ∀ (samples : List (Nat × Bytes)) (r0 r2 : Dict Bytes),
          optFoldl (fun r p => processSample (pysplitOn ':' f8) gcols r p.1 p.2)
            samples r0 = some r2 →
          (dictGet x r2).isSome = true →
          (dictGet x r0).isSome = true ∨
            ∃ (j : Nat) (gd : Dict Bytes), gcols[j]? = some gd ∧ ∃ n, dictGet n gd = some x := by
        intro samples
        induction samples with
        | nil =>
          intro r0 r2 hfold hx2
          cases hfold
          exact Or.inl hx2
        | cons p rest ih =>
          intro r0 r2 hfold hx2
          simp only [optFoldl] at hfold
          cases hs : processSample (pysplitOn ':' f8) gcols r0 p.1 p.2 with
          | none => rw [hs] at hfold; cases hfold
          | some r1 =>
            simp only [hs] at hfold
            rcases ih r1 r2 hfold hx2 with h1 | h2
            · rcases processSample_keys hs x h1 with ha | ⟨gd, hgd, n, hn⟩
              · exact Or.inl ha
              · exact Or.inr ⟨p.1, gd, hgd, n, hn⟩
            · exact Or.inr h2
      exact hgen _ _ _ h hx
  · rw [if_neg hlen] at h
    cases h
    exact Or.inl hx

/-- Every key of the intermediate row map comes from the fixed, INFO or
genotype mappings of the row setup. -/
theorem buildRawRow_keys {su : RowSetup} {s : Bytes} {row : Dict Bytes}
    (h : buildRawRow su s = some row) (k : Bytes)
    (hk : (dictGet k row).isSome = true) :
    (∃ p ∈ su.fixed_columns, p.2 = k) ∨
      (∃ n, dictGet n su.info_columns = some k) ∨
      (∃ (j : Nat) (gd : Dict Bytes), su.genotype_columns[j]? = some gd ∧
        ∃ n, dictGet n gd = some k) := by
  simp only [buildRawRow] at h
  cases hpf : processFixed su.fixed_columns (pysplitWs s) [] with
  | none => rw [hpf] at h; cases h
  | some rowF =>
    simp only [hpf] at h
    cases h7 : (pysplitWs s)[7]? with
    | none => rw [h7] at h; cases h
    | some f7 =>
      simp only [h7] at h
      rcases processGenotypes_keys h k hk with h1 | h2
      · rcases infoFold_keys su.info_columns (pysplitOn ';' f7) rowF k h1
          with h3 | h4
        · rcases processFixed_keys hpf k h3 with h5 | h6
          · simp [dictGet] at h5
          · exact Or.inl h6
        · exact Or.inr (Or.inl h4)
      · exact Or.inr (Or.inr h2)

/-- C9: every key of a transcoded row's intermediate map is a key of the
supplied column map, so the decoder lookup of the final row-construction
loop always succeeds. -/
theorem C9_row_keys_in_requested_columns (genotypes : List Bytes)
    (tc : Dict (Option Conv)) (su : RowSetup) (s : Bytes) (row : Dict Bytes)
    (hsu : rows_setup genotypes tc = some su)
    (hrow : buildRawRow su s = some row) :
    ∀ k, (dictGet k row).isSome = true → (dictGet k tc).isSome = true := by
  intro k hk
  obtain ⟨hfix, hinfo, hgeno⟩ := rows_setup_parts hsu
  rcases buildRawRow_keys hrow k hk with ⟨p, hp, hpk⟩ | ⟨n, hn⟩ |
    ⟨j, gd, hj, n, hn⟩
  · rw [hfix] at hp
    rw [← hpk]
    exact fixedColumnsOf_mem hp
  · exact hinfo n k hn
  · exact hgeno j gd hj n k hn

/-- The requested column map of the C9 witness. -/
def c9_tc : Dict (Option Conv) :=
  [(CHROM_NAME, none), (bts "INFO_AC", some (Conv.eachTok ElemType.int)),
   (bts "S1_GT", none)]

/-- The row setup of the C9 witness. -/
def c9_su : RowSetup := (rows_setup [bts "S1"] c9_tc).getD ⟨[], [], []⟩

/-- A data line with one annotation and one genotype field. -/
def c9_line : Bytes := bts "1 2 3 4 5 6 7 AC=1,2 GT 0|1"

/-- The intermediate row map of the C9 witness line. -/
def c9_row : Dict Bytes := (buildRawRow c9_su c9_line).getD []

/-- Witness for C9 at the genotype column key of `c9_line`. -/
theorem C9_witness : (dictGet (bts "S1_GT") c9_tc).isSome = true :=
  C9_row_keys_in_requested_columns [bts "S1"] c9_tc c9_su c9_line c9_row
    rfl rfl (bts "S1_GT") (by decide)

/-! ## Claim C3 -/

/-- The fixed-column loop preserves key nodup-ness. -/
theorem nodup_processFixed {fixed : List (Nat × Bytes)} {l : List Bytes}
    {row0 row : Dict Bytes} (h : processFixed fixed l row0 = some row)
    (hnd : (dictKeys row0).Nodup) : (dictKeys row).Nodup := by
  induction fixed generalizing row0 with
  | nil =>
    simp only [processFixed, optFoldl] at h
    cases h
    exact hnd
  | cons p rest ih =>
    simp only [processFixed, optFoldl] at h
    cases hg : l[p.1]? with
    | none => simp [hg] at h
    | some v =>
      simp only [hg, Option.map_some'] at h
      apply ih (show processFixed rest l _ = some row from h)
      by_cases hv : v ≠ MISSING_VALUE
      · rw [if_pos hv]
        exact nodup_dictKeys_dictSet _ _ hnd
      · rw [if_neg hv]
        exact hnd

/-- One INFO mapping preserves key nodup-ness. -/
theorem nodup_processInfoToken (ic : Dict Bytes) (row : Dict Bytes)
    (t : Bytes) (hnd : (dictKeys row).Nodup) :
    (dictKeys (processInfoToken ic row t)).Nodup := by
  simp only [processInfoToken]
  cases hh : (pysplitOn '=' t).head? with
  | none =>
    simp only [hh]
    exact hnd
  | some name =>
    simp only [hh]
    cases hc : dictGet name ic with
    | none =>
      simp only [hc]
      exact hnd
    | some col =>
      simp only [hc]
      rcases hsplit : pysplitOn '=' t with _ | ⟨a, _ | ⟨b, _ | ⟨c2, r⟩⟩⟩ <;>
        · simp only [hsplit]
          exact nodup_dictKeys_dictSet _ _ hnd

/-- The INFO fold preserves key nodup-ness. -/
theorem nodup_infoFold (ic : Dict Bytes) (toks : List Bytes)
    (row0 : Dict Bytes) (hnd : (dictKeys row0).Nodup) :
    (dictKeys (toks.foldl (processInfoToken ic) row0)).Nodup := by
  induction toks generalizing row0 with
  | nil => exact hnd
  | cons t rest ih =>
    rw [List.foldl_cons]
    exact ih _ (nodup_processInfoToken ic row0 t hnd)

/-- One genotype field preserves key nodup-ness. -/
theorem nodup_processSampleField {fmt : List Bytes} {gdict : Dict Bytes}
    {tokens : List Bytes} {row row2 : Dict Bytes} {k : Nat}
    (h : processSampleField fmt gdict tokens row k = some row2)
    (hnd : (dictKeys row).Nodup) : (dictKeys row2).Nodup := by
  simp only [processSampleField] at h
  cases hf : fmt[k]? with
  | none => rw [hf] at h; cases h
  | some fk =>
    simp only [hf] at h
    cases hd : dictGet fk gdict with
    | none =>
      simp only [hd] at h
      cases h
      exact hnd
    | some col =>
      simp only [hd] at h
      cases ht : tokens[k]? with
      | none => rw [ht] at h; cases h
      | some tok =>
        simp only [ht] at h
        cases h
        by_cases hcond : tok ≠ MISSING_VALUE ∧ tok ≠ bts ".,."
        · rw [if_pos hcond]
          exact nodup_dictKeys_dictSet _ _ hnd
        · rw [if_neg hcond]
          exact hnd

/-- One sample of the genotype loop preserves key nodup-ness. -/
theorem nodup_processSample {fmt : List Bytes} {gcols : List (Dict Bytes)}
    {row row2 : Dict Bytes} {j : Nat} {gv : Bytes}
    (h : processSample fmt gcols row j gv = some row2)
    (hnd : (dictKeys row).Nodup) : (dictKeys row2).Nodup := by
  simp only [processSample] at h
  by_cases hlen : (pysplitOn ':' gv).length = fmt.length
  · rw [if_pos hlen] at h
    have hgen : ∀ (ks : List Nat) (r0 r2 : Dict Bytes),
        optFoldl
          (fun r k =>
            match gcols[j]? with
            | none => none
            | some gdict => processSampleField fmt gdict (pysplitOn ':' gv) r k)
          ks r0 = some r2 →
        (dictKeys r0).Nodup → (dictKeys r2).Nodup := by
      intro ks
      induction ks with
      | nil =>
        intro r0 r2 hfold hnd0
        cases hfold
        exact hnd0
      | cons k2 rest ih =>
        intro r0 r2 hfold hnd0
        simp only [optFoldl] at hfold
        cases hstep : (match gcols[j]? with
            | none => none
            | some gdict =>
              processSampleField fmt gdict (pysplitOn ':' gv) r0 k2) with
        | none => rw [hstep] at hfold; cases hfold
        | some row1 =>
          simp only [hstep] at hfold
          apply ih row1 r2 hfold
          cases hg : gcols[j]? with
          | none => rw [hg] at hstep; cases hstep
          | some gdict =>
            simp only [hg] at hstep
            exact nodup_processSampleField hstep hnd0
    exact hgen _ _ _ h hnd
  · rw [if_neg hlen] at h
    cases h
    exact hnd

/-- The genotype section preserves key nodup-ness. -/
theorem nodup_processGenotypes {gcols : List (Dict Bytes)} {l : List Bytes}
    {row row2 : Dict Bytes} (h : processGenotypes gcols l row = some row2)
    (hnd : (dictKeys row).Nodup) : (dictKeys row2).Nodup := by
  simp only [processGenotypes] at h
  by_cases hlen : l.length > 8
  · rw [if_pos hlen] at h
    cases h8 : l[8]? with
    | none => rw [h8] at h; cases h
    | some f8 =>
      simp only [h8] at h
      have hgen : ∀ (samples : List (Nat × Bytes)) (r0 r2 : Dict Bytes),
          optFoldl (fun r p => processSample (pysplitOn ':' f8) gcols r p.1 p.2)
            samples r0 = some r2 →
          (dictKeys r0).Nodup → (dictKeys r2).Nodup := by
        intro samples
        induction samples with
        | nil =>
          intro r0 r2 hfold hnd0
          cases hfold
          exact hnd0
        | cons p rest ih =>
          intro r0 r2 hfold hnd0
          simp only [optFoldl] at hfold
          cases hs : processSample (pysplitOn ':' f8) gcols r0 p.1 p.2 with
          | none => rw [hs] at hfold; cases hfold
          | some row1 =>
            simp only [hs] at hfold
            exact ih row1 r2 hfold (nodup_processSample hs hnd0)
      exact hgen _ _ _ h hnd
  · rw [if_neg hlen] at h
    cases h
    exact hnd

/-- The intermediate row map of a line has no duplicate keys. -/
theorem nodup_buildRawRow {su : RowSetup} {s : Bytes} {row : Dict Bytes}
    (h : buildRawRow su s = some row) : (dictKeys row).Nodup := by
  simp only [buildRawRow] at h
  cases hpf : processFixed su.fixed_columns (pysplitWs s) [] with
  | none => rw [hpf] at h; cases h
  | some rowF =>
    simp only [hpf] at h
    cases h7 : (pysplitWs s)[7]? with
    | none => rw [h7] at h; cases h
    | some f7 =>
      simp only [h7] at h
      exact nodup_processGenotypes h
        (nodup_infoFold _ _ _ (nodup_processFixed hpf List.nodup_nil))

/-- The fixed-column loop leaves a column that no fixed name matches
untouched. -/
theorem processFixed_get_pres {col : Bytes} {fixed : List (Nat × Bytes)}
    {l : List Bytes} {row0 row : Dict Bytes}
    (h : processFixed fixed l row0 = some row)
    (hcol : ∀ p ∈ fixed, p.2 ≠ col) :
    dictGet col row = dictGet col row0 := by
  induction fixed generalizing row0 with
  | nil =>
    simp only [processFixed, optFoldl] at h
    cases h
    rfl
  | cons p rest ih =>
    simp only [processFixed, optFoldl] at h
    cases hg : l[p.1]? with
    | none => simp [hg] at h
    | some v =>
      simp only [hg, Option.map_some'] at h
      have hrec := ih (show processFixed rest l _ = some row from h)
        (fun q hq => hcol q (List.mem_cons_of_mem p hq))
      rw [hrec]
      by_cases hv : v ≠ MISSING_VALUE
      · rw [if_pos hv]
        exact dictGet_dictSet_ne
          (fun e => hcol p (List.mem_cons_self p rest) e.symm) v row0
      · rw [if_neg hv]

/-- One INFO mapping whose key does not name `col` leaves `col` untouched. -/
theorem processInfoToken_get_pres {ic : Dict Bytes} {row : Dict Bytes}
    {t col : Bytes}
    (hcol : ∀ n, (pysplitOn '=' t).head? = some n →
      dictGet n ic ≠ some col) :
    dictGet col (processInfoToken ic row t) = dictGet col row := by
  simp only [processInfoToken]
  cases hh : (pysplitOn '=' t).head? with
  | none =>
    simp only [hh]
  | some name =>
    simp only [hh]
    cases hc : dictGet name ic with
    | none => simp only [hc]
    | some col2 =>
      simp only [hc]
      have hne : col ≠ col2 := fun e => hcol name hh (e ▸ hc)
      rcases hsplit : pysplitOn '=' t with _ | ⟨a, _ | ⟨b, _ | ⟨c2, r⟩⟩⟩ <;>
        · simp only [hsplit]
          exact dictGet_dictSet_ne hne _ row

/-- The INFO fold with no mapping that names `col` leaves `col` untouched. -/
theorem infoFold_get_pres {ic : Dict Bytes} {toks : List Bytes}
    {row0 : Dict Bytes} {col : Bytes}
    (hcol : ∀ t ∈ toks, ∀ n, (pysplitOn '=' t).head? = some n →
      dictGet n ic ≠ some col) :
    dictGet col (toks.foldl (processInfoToken ic) row0) =
      dictGet col row0 := by
  induction toks generalizing row0 with
  | nil => rfl
  | cons t rest ih =>
    rw [List.foldl_cons,
      ih (fun t2 h2 => hcol t2 (List.mem_cons_of_mem t h2)),
      processInfoToken_get_pres (hcol t (List.mem_cons_self t rest))]

/-- A bare INFO mapping (`=`-split not of length two) whose key names `col`
records the literal `"1"` for `col`. -/
theorem processInfoToken_get_write_bare {ic : Dict Bytes} {row : Dict Bytes}
    {t key col : Bytes} (hh : (pysplitOn '=' t).head? = some key)
    (hkey : dictGet key ic = some col)
    (hlen : (pysplitOn '=' t).length ≠ 2) :
    dictGet col (processInfoToken ic row t) = some (bts "1") := by
  simp only [processInfoToken, hh, hkey]
  rcases hsplit : pysplitOn '=' t with _ | ⟨a, _ | ⟨b, _ | ⟨c2, r⟩⟩⟩
  · simp only [hsplit]
    exact dictGet_dictSet_self col (bts "1") row
  · simp only [hsplit]
    exact dictGet_dictSet_self col (bts "1") row
  · rw [hsplit] at hlen
    simp at hlen
  · simp only [hsplit]
    exact dictGet_dictSet_self col (bts "1") row

/-- If some mapping's key names `col`, every such mapping is bare, and only
`key` maps to `col`, the INFO fold records `"1"` for `col`. -/
theorem infoFold_get_write {ic : Dict Bytes} {toks : List Bytes}
    {row0 : Dict Bytes} {key col : Bytes}
    (h1 : dictGet key ic = some col)
    (h2 : ∀ n c, dictGet n ic = some c → c = col → n = key)
    (hex : ∃ t ∈ toks, (pysplitOn '=' t).head? = some key)
    (hbare : ∀ t ∈ toks, (pysplitOn '=' t).head? = some key →
      (pysplitOn '=' t).length ≠ 2) :
    dictGet col (toks.foldl (processInfoToken ic) row0) = some (bts "1") := by
  induction toks generalizing row0 with
  | nil => simp at hex
  | cons t rest ih =>
    rw [List.foldl_cons]
    by_cases hrest : ∃ t2 ∈ rest, (pysplitOn '=' t2).head? = some key
    · exact ih hrest
        (fun t2 ht2 => hbare t2 (List.mem_cons_of_mem t ht2))
    · have ht : (pysplitOn '=' t).head? = some key := by
        rcases hex with ⟨t2, ht2, hkey2⟩
        rcases List.mem_cons.mp ht2 with rfl | hmem
        · exact hkey2
        · exact absurd ⟨t2, hmem, hkey2⟩ hrest
      have hpres : ∀ t2 ∈ rest, ∀ n, (pysplitOn '=' t2).head? = some n →
          dictGet n ic ≠ some col := by
        intro t2 ht2 n hn he
        exact hrest ⟨t2, ht2, (h2 n col he rfl) ▸ hn⟩
      rw [infoFold_get_pres hpres,
        processInfoToken_get_write_bare ht h1
          (hbare t (List.mem_cons_self t rest) ht)]

/-- One genotype field of a sample whose dictionary never names `col`
leaves `col` untouched. -/
theorem processSampleField_get_pres {col : Bytes} {fmt : List Bytes}
    {gdict : Dict Bytes} {tokens : List Bytes} {row row2 : Dict Bytes}
    {k : Nat} (h : processSampleField fmt gdict tokens row k = some row2)
    (hcol : ∀ n c, dictGet n gdict = some c → c ≠ col) :
    dictGet col row2 = dictGet col row := by
  simp only [processSampleField] at h
  cases hf : fmt[k]? with
  | none => rw [hf] at h; cases h
  | some fk =>
    simp only [hf] at h
    cases hd : dictGet fk gdict with
    | none =>
      simp only [hd] at h
      cases h
      rfl
    | some col2 =>
      simp only [hd] at h
      cases ht : tokens[k]? with
      | none => rw [ht] at h; cases h
      | some tok =>
        simp only [ht] at h
        cases h
        by_cases hcond : tok ≠ MISSING_VALUE ∧ tok ≠ bts ".,."
        · rw [if_pos hcond]
          exact dictGet_dictSet_ne (Ne.symm (hcol fk col2 hd)) tok row
        · rw [if_neg hcond]

/-- The genotype section with no sample dictionary naming `col` leaves
`col` untouched. -/
theorem processGenotypes_get_pres {col : Bytes} {gcols : List (Dict Bytes)}
    {l : List Bytes} {row row2 : Dict Bytes}
    (h : processGenotypes gcols l row = some row2)
    (hcol : ∀ (j : Nat) (gd : Dict Bytes), gcols[j]? = some gd →
      ∀ n c, dictGet n gd = some c → c ≠ col) :
    dictGet col row2 = dictGet col row := by
  simp only [processGenotypes] at h
  by_cases hlen : l.length > 8
  · rw [if_pos hlen] at h
    cases h8 : l[8]? with
    | none => rw [h8] at h; cases h
    | some f8 =>
      simp only [h8] at h
      have hsamp : ∀ (fmt : List Bytes) (r0 r2 : Dict Bytes) (j : Nat)
          (gv : Bytes), processSample fmt gcols r0 j gv = some r2 →
          dictGet col r2 = dictGet col r0 := by
        intro fmt r0 r2 j gv hs
        simp only [processSample] at hs
        by_cases hl2 : (pysplitOn ':' gv).length = fmt.length
        · rw [if_pos hl2] at hs
          have hks : ∀ (ks : List Nat) (q0 q2 : Dict Bytes),
              optFoldl
                (fun r k =>
                  match gcols[j]? with
                  | none => none
                  | some gdict =>
                    processSampleField fmt gdict (pysplitOn ':' gv) r k)
                ks q0 = some q2 →
              dictGet col q2 = dictGet col q0 := by
            intro ks
            induction ks with
            | nil =>
              intro q0 q2 hfold
              cases hfold
              rfl
            | cons k2 rest ih =>
              intro q0 q2 hfold
              simp only [optFoldl] at hfold
              cases hstep : (match gcols[j]? with
                  | none => none
                  | some gdict =>
                    processSampleField fmt gdict (pysplitOn ':' gv) q0 k2) with
              | none => rw [hstep] at hfold; cases hfold
              | some q1 =>
                simp only [hstep] at hfold
                rw [ih q1 q2 hfold]
                cases hg : gcols[j]? with
                | none => rw [hg] at hstep; cases hstep
                | some gdict =>
                  simp only [hg] at hstep
                  exact processSampleField_get_pres hstep (hcol j gdict hg)
          exact hks _ _ _ hs
        · rw [if_neg hl2] at hs
          cases hs
          rfl
      have hall : ∀ (samples : List (Nat × Bytes)) (r0 r2 : Dict Bytes),
          optFoldl (fun r p => processSample (pysplitOn ':' f8) gcols r p.1 p.2)
            samples r0 = some r2 →
          dictGet col r2 = dictGet col r0 := by
        intro samples
        induction samples with
        | nil =>
          intro r0 r2 hfold
          cases hfold
          rfl
        | cons p rest ih =>
          intro r0 r2 hfold
          simp only [optFoldl] at hfold
          cases hs : processSample (pysplitOn ':' f8) gcols r0 p.1 p.2 with
          | none => rw [hs] at hfold; cases hfold
          | some r1 =>
            simp only [hs] at hfold
            rw [ih r1 r2 hfold, hsamp _ _ _ _ _ hs]
      exact hall _ _ _ h
  · rw [if_neg hlen] at h
    cases h
    rfl

/-- The decode loop leaves a key that no processed entry carries
untouched. -/
theorem decodeFold_get_pres {tc : Dict (Option Conv)} {col : Bytes}
    (rest : Dict Bytes) {d0 res : Dict PyVal}
    (hcol : ∀ kv ∈ rest, kv.1 ≠ col)
    (h : optFoldl (decodeEntry tc) rest d0 = some res) :
    dictGet col res = dictGet col d0 := by
  induction rest generalizing d0 with
  | nil =>
    cases h
    rfl
  | cons kv tail ih =>
    simp only [optFoldl] at h
    cases hstep : decodeEntry tc d0 kv with
    | none => rw [hstep] at h; cases h
    | some d1 =>
      simp only [hstep] at h
      rw [ih (fun q hq => hcol q (List.mem_cons_of_mem kv hq)) h]
      have hne : col ≠ kv.1 :=
        Ne.symm (hcol kv (List.mem_cons_self kv tail))
      simp only [decodeEntry] at hstep
      cases hg : dictGet kv.1 tc with
      | none => rw [hg] at hstep; cases hstep
      | some fo =>
        cases fo with
        | none =>
          simp only [hg] at hstep
          cases hstep
          exact dictGet_dictSet_ne hne _ d0
        | some cv =>
          simp only [hg] at hstep
          cases hw : apply_conv cv kv.2 with
          | none => rw [hw] at hstep; cases hstep
          | some w =>
            simp only [hw] at hstep
            cases hstep
            exact dictGet_dictSet_ne hne _ d0

/-- A key absent from the intermediate row map is absent from the decoded
record. -/
theorem decodeRow_get_none {tc : Dict (Option Conv)} {col : Bytes}
    {row : Dict Bytes} {res : Dict PyVal} (h : decodeRow tc row = some res)
    (hc : dictGet col row = none) : dictGet col res = none := by
  have hcol : ∀ kv ∈ row, kv.1 ≠ col := by
    intro kv hkv he
    have hs := dictGet_isSome_of_mem hkv
    rw [he, hc] at hs
    cases hs
  rw [decodeFold_get_pres row hcol h]
  rfl

/-- A key recorded with raw value `v` and whose requested decoder is `cv`
is present in the decoded record with the decoded value. -/
theorem decodeFold_get_conv {tc : Dict (Option Conv)} {col v : Bytes}
    {cv : Conv} {w : PyVal} (htc : dictGet col tc = some (some cv))
    (hw : apply_conv cv v = some w) :
    ∀ (row : Dict Bytes) (d0 res : Dict PyVal), (dictKeys row).Nodup →
      dictGet col row = some v →
      optFoldl (decodeEntry tc) row d0 = some res →
      dictGet col res = some w := by
  intro row
  induction row with
  | nil =>
    intro d0 res _ hv _
    cases hv
  | cons kv tail ih =>
    intro d0 res hnd hv h
    obtain ⟨k2, v2⟩ := kv
    simp only [optFoldl] at h
    cases hstep : decodeEntry tc d0 (k2, v2) with
    | none => rw [hstep] at h; cases h
    | some d1 =>
      simp only [hstep] at h
      by_cases hk : k2 = col
      · subst hk
        rw [dictGet] at hv
        rw [if_pos rfl] at hv
        cases hv
        have hknot : k2 ∉ dictKeys tail := by
          rw [dictKeys, List.map_cons] at hnd
          exact (List.nodup_cons.mp hnd).1
        have htail : ∀ q ∈ tail, q.1 ≠ k2 := by
          intro q hq he
          exact hknot (he ▸ List.mem_map_of_mem (fun p => p.1) hq)
        rw [decodeFold_get_pres tail htail h]
        simp only [decodeEntry, htc, hw] at hstep
        cases hstep
        exact dictGet_dictSet_self k2 w d0
      · rw [dictGet, if_neg hk] at hv
        have hnd2 : (dictKeys tail).Nodup := by
          rw [dictKeys, List.map_cons] at hnd
          exact (List.nodup_cons.mp hnd).2
        exact ih d1 res hnd2 hv h

/-- C3: a `Flag` declaration induces an integer element with arity forced
to one regardless of the declared `Number`; in a transcoded row, a bare
occurrence of the flag's key in the annotation field decodes to the integer
`1` for that column, and absence of the key leaves the column absent from
the decoded record. -/
theorem C3_flag_presence_bit :
    (∀ (line : Bytes) (d : Dict Bytes) (ci : ColumnInfo),
      parse_attrs line = some d → dictGet TYPE d = some FLAG →
      parse_column_spec line = some ci →
      ci.element_type = ElemType.int ∧ ci.num_elements = 1)
    ∧ (∀ (su : RowSetup) (tc : Dict (Option Conv)) (s f7 key col : Bytes)
        (row : Dict Bytes) (resD : Dict PyVal),
      (pysplitWs s)[7]? = some f7 →
      dictGet key su.info_columns = some col →
      (∀ n c, dictGet n su.info_columns = some c → c = col → n = key) →
      (∀ p ∈ su.fixed_columns, p.2 ≠ col) →
      (∀ (j : Nat) (gd : Dict Bytes), su.genotype_columns[j]? = some gd →
        ∀ n c, dictGet n gd = some c → c ≠ col) →
      dictGet col tc = some (get_converter ElemType.int 1) →
      buildRawRow su s = some row →
      decodeRow tc row = some resD →
      ((∃ t ∈ pysplitOn ';' f7, (pysplitOn '=' t).head? = some key) →
        (∀ t ∈ pysplitOn ';' f7, (pysplitOn '=' t).head? = some key →
          (pysplitOn '=' t).length ≠ 2) →
        dictGet col resD = some (PyVal.int 1))
      ∧ ((∀ t ∈ pysplitOn ';' f7, ¬(pysplitOn '=' t).head? = some key) →
        dictGet col resD = none)) := by
  constructor
  · intro line d ci ha ht hci
    simp only [parse_column_spec, ha] at hci
    cases hid : dictGet ID d with
    | none => simp [hid] at hci
    | some name =>
      simp only [hid] at hci
      cases hde : dictGet DESCRIPTION d with
      | none => simp [hde] at hci
      | some descRaw =>
        simp only [hde] at hci
        cases hnum : dictGet NUMBER d with
        | none => simp [hnum] at hci
        | some number =>
          simp only [hnum, ht] at hci
          have htri : type_triple FLAG (parsed_num number) =
              some (ElemType.int, 1, 1) := rfl
          simp only [htri] at hci
          cases hci
          exact ⟨rfl, rfl⟩
  · intro su tc s f7 key col row resD h7 h1 h2 h5 h6 htc hrow hdec
    simp only [buildRawRow] at hrow
    cases hpf : processFixed su.fixed_columns (pysplitWs s) [] with
    | none => rw [hpf] at hrow; cases hrow
    | some rowF =>
      simp only [hpf, h7] at hrow
      have hfix : dictGet col rowF = none := by
        rw [processFixed_get_pres hpf h5]
        rfl
      have hgpres : dictGet col row =
          dictGet col ((pysplitOn ';' f7).foldl
            (processInfoToken su.info_columns) rowF) :=
        processGenotypes_get_pres hrow h6
      have hnd : (dictKeys row).Nodup :=
        nodup_processGenotypes hrow
          (nodup_infoFold _ _ _ (nodup_processFixed hpf List.nodup_nil))
      constructor
      · intro hex hbare
        have hv : dictGet col ((pysplitOn ';' f7).foldl
            (processInfoToken su.info_columns) rowF) = some (bts "1") :=
          infoFold_get_write h1 h2 hex hbare
        have hv2 : dictGet col row = some (bts "1") := by
          rw [hgpres, hv]
        have hconv : get_converter ElemType.int 1 =
            some (Conv.scalar ElemType.int) := rfl
        rw [hconv] at htc
        have hw : apply_conv (Conv.scalar ElemType.int) (bts "1") =
            some (PyVal.int 1) := rfl
        exact decodeFold_get_conv htc hw row [] resD hnd hv2 hdec
      · intro hnone
        have hpres : ∀ t ∈ pysplitOn ';' f7, ∀ n,
            (pysplitOn '=' t).head? = some n →
            dictGet n su.info_columns ≠ some col := by
          intro t ht n hn he
          exact hnone t ht ((h2 n col he rfl) ▸ hn)
        have hv : dictGet col row = none := by
          rw [hgpres, infoFold_get_pres hpres, hfix]
        exact decodeRow_get_none hdec hv

/-- A `Type=Flag` declaration with `Number=0`. -/
def c3_flagline : Bytes := bts "##INFO=<ID=DB,Number=0,Type=Flag,Description=\"x\">"

/-- Attributes of `c3_flagline`. -/
def c3_flagd : Dict Bytes := (parse_attrs c3_flagline).getD []

/-- Column specification of `c3_flagline`. -/
def c3_fci : ColumnInfo :=
  (parse_column_spec c3_flagline).getD ⟨[], [], ElemType.bytes, 0, 9⟩

/-- The requested column map of the C3 witness: the flag column only. -/
def c3_tc : Dict (Option Conv) :=
  [(bts "INFO_DB", get_converter ElemType.int 1)]

/-- The row setup of the C3 witness. -/
def c3_su : RowSetup := (rows_setup [] c3_tc).getD ⟨[], [], []⟩

/-- A data line whose annotation field carries the bare key `DB`. -/
def c3_lineP : Bytes := bts "1 2 3 4 5 6 7 DB;AC=5"

/-- The intermediate row map of `c3_lineP`. -/
def c3_rowP : Dict Bytes := (buildRawRow c3_su c3_lineP).getD []

/-- The decoded record of `c3_lineP`. -/
def c3_resP : Dict PyVal := (decodeRow c3_tc c3_rowP).getD []

/-- A data line whose annotation field does not carry the key `DB`. -/
def c3_lineA : Bytes := bts "1 2 3 4 5 6 7 AC=5"

/-- The intermediate row map of `c3_lineA`. -/
def c3_rowA : Dict Bytes := (buildRawRow c3_su c3_lineA).getD []

/-- The decoded record of `c3_lineA`. -/
def c3_resA : Dict PyVal := (decodeRow c3_tc c3_rowA).getD []

set_option maxRecDepth 40000 in
/-- Witness for C3: the flag column spec, a present bare key decoding to
the integer 1, and an absent key staying absent. -/
theorem C3_witness :
    (c3_fci.element_type = ElemType.int ∧ c3_fci.num_elements = 1)
      ∧ dictGet (bts "INFO_DB") c3_resP = some (PyVal.int 1)
      ∧ dictGet (bts "INFO_DB") c3_resA = none := by
  have h2 : ∀ n c, dictGet n c3_su.info_columns = some c →
      c = bts "INFO_DB" → n = bts "DB" := by
    have he : c3_su.info_columns = [(bts "DB", bts "INFO_DB")] := rfl
    rw [he]
    intro n c hg _
    rw [dictGet] at hg
    by_cases hn : bts "DB" = n
    · exact hn.symm
    · rw [if_neg hn, dictGet] at hg
      cases hg
  have h5 : ∀ p ∈ c3_su.fixed_columns, p.2 ≠ bts "INFO_DB" := by
    have he : c3_su.fixed_columns = ([] : List (Nat × Bytes)) := rfl
    rw [he]
    intro p hp
    cases hp
  have h6 : ∀ (j : Nat) (gd : Dict Bytes),
      c3_su.genotype_columns[j]? = some gd →
      ∀ n c, dictGet n gd = some c → c ≠ bts "INFO_DB" := by
    have he : c3_su.genotype_columns = ([] : List (Dict Bytes)) := rfl
    rw [he]
    intro j gd hj
    simp at hj
  refine ⟨C3_flag_presence_bit.1 c3_flagline c3_flagd c3_fci rfl rfl rfl,
    ?_, ?_⟩
  · exact (C3_flag_presence_bit.2 c3_su c3_tc c3_lineP (bts "DB;AC=5")
      (bts "DB") (bts "INFO_DB") c3_rowP c3_resP rfl rfl h2 h5 h6 rfl rfl
      rfl).1 (by decide) (by decide)
  · exact (C3_flag_presence_bit.2 c3_su c3_tc c3_lineA (bts "AC=5")
      (bts "DB") (bts "INFO_DB") c3_rowA c3_resA rfl rfl h2 h5 h6 rfl rfl
      rfl).2 (by decide)

end Vcf2Avro
